import Mathlib

/-!
Shallow embedding of the fusion core of the `canairy` repository:
the staleness handler (`src/processors/stale_handler.py`), the HOPI
score aggregator (`src/processors/hopi_calculator.py`), the phase state
machine (`src/processors/phase_controller.py`) and the pipeline glue
(`src/processors/phase_manager_hopi.py`).

Python floats are embedded as `ℚ`, colors as `ℕ` (`0` green, `1` amber,
`2` red), times and ages in hours as `ℚ`, and Python dicts as
association lists `List (String × α)` with dict semantics (update in
place keeps order, a fresh key is appended, lookup finds the first
entry).
-/

namespace Canairy

/-- Lookup in an association list (Python `dict.get`). -/
def alookup {α : Type} (l : List (String × α)) (k : String) : Option α :=
  match l with
  | [] => none
  | (k', v) :: t => if k' = k then some v else alookup t k

/-- Dict write: replace the value of an existing key in place, append a new
key at the end (Python `d[k] = v`). -/
def aset {α : Type} (l : List (String × α)) (k : String) (v : α) :
    List (String × α) :=
  match l with
  | [] => [(k, v)]
  | (k', v') :: t => if k' = k then (k', v) :: t else (k', v') :: aset t k v

/-- Dict deletion (Python `del d[k]`, a no-op when the key is absent). -/
def aerase {α : Type} (l : List (String × α)) (k : String) :
    List (String × α) :=
  match l with
  | [] => []
  | (k', v') :: t => if k' = k then t else (k', v') :: aerase t k

/-! ## Stale data handler (`stale_handler.py`) -/

/-- Metadata attached to a reading by `StaleDataHandler.check_staleness`:
the `stale` flag, the optional forced level, and the recorded age. -/
structure StaleMeta where
  stale : Bool
  forceLevel : Option String
  dataAgeHours : Option ℚ
  deriving Repr, DecidableEq

/-- A raw indicator reading as consumed by the processors: a numeric value,
an optional timestamp (absolute time in hours; `none` models a missing
`timestamp` key) and an optional declared source. -/
structure Reading where
  value : ℚ
  timestamp : Option ℚ
  source : Option String
  deriving Repr, DecidableEq

/-- Stale thresholds from config: defaults `amber_hours = 48`,
`red_hours = 168` (7 days). -/
def amberHours : ℚ := 48

/-- Default red staleness limit (hours). -/
def redHours : ℚ := 168

/-- `StaleDataHandler.check_staleness` for a present reading: computes
`age_hours = now - data_time` and sets `metadata['stale']` /
`metadata['force_level']` (red at `age ≥ red_hours`, amber at
`age ≥ amber_hours`, nothing below).  A reading without a timestamp is
marked stale with forced level red (`no_timestamp`). -/
def checkStaleness (now : ℚ) (r : Reading) : StaleMeta :=
  match r.timestamp with
  | none => ⟨true, some "red", none⟩
  | some ts =>
    let ageHours := now - ts
    if redHours ≤ ageHours then ⟨true, some "red", some ageHours⟩
    else if amberHours ≤ ageHours then ⟨true, some "amber", some ageHours⟩
    else ⟨false, none, some ageHours⟩

/-- `StaleDataHandler.apply_stale_level`: when the metadata is stale and
carries a forced level, the forced level **replaces** the original threat
level (there is no `max`). -/
def applyStaleLevel (threatLevel : String) (meta : StaleMeta) : String :=
  if meta.stale then
    match meta.forceLevel with
    | some forced => forced
    | none => threatLevel
  else threatLevel

/-- Rank of a threat-level color string, as in the pipeline color map
(`green=0`, `amber=1`, `red=2`; anything else `0`). -/
def levelRank (s : String) : ℕ :=
  if s = "green" then 0
  else if s = "amber" then 1
  else if s = "red" then 2
  else 0

/-! ## Pipeline indicator states (`phase_manager_hopi.py`) -/

/-- One prepared indicator state, the dict built per indicator by
`PhaseManagerHOPI._prepare_indicators`. -/
structure IndData where
  color : ℕ
  value : ℚ
  level : String
  source : String
  timestamp : Option ℚ
  confirmed : Bool
  deriving Repr, DecidableEq

/-- Current indicator states keyed by name (a Python dict). -/
abbrev Inds := List (String × IndData)

/-- The `color_map` lookup with default `0`:
`{'green': 0, 'amber': 1, 'red': 2}.get(level, 0)`. -/
def colorOfLevel (level : String) : ℕ := levelRank level

/-- `PhaseManagerHOPI._prepare_indicators`: readings with `None` are
skipped; the rest become indicator states with the color taken from the
threat-level map (default `unknown` ⇒ color `0`) and `confirmed = True`
(updated later by the confirmation rules). -/
def prepareIndicators (readings : List (String × Option Reading))
    (threatLevels : List (String × String)) : Inds :=
  readings.foldl
    (fun acc p =>
      match p.2 with
      | none => acc
      | some r =>
        let level := (alookup threatLevels p.1).getD "unknown"
        aset acc p.1
          { color := colorOfLevel level
            value := r.value
            level := level
            source := r.source.getD "unknown"
            timestamp := r.timestamp
            confirmed := true })
    []

/-- `_check_stale_data` looks for a top-level key that `check_staleness`
never writes: `staleness.get('is_stale', False)`.  The returned reading
only ever carries `metadata['stale']`, so this access is always `False`
for a present reading. -/
def readingIsStaleKey (_ : StaleMeta) : Bool := false

/-- `PhaseManagerHOPI._check_stale_data`: collects names of `None`
readings, and names of present readings whose `is_stale` key is set —
which never happens (`readingIsStaleKey`). -/
def checkStaleData (now : ℚ) (readings : List (String × Option Reading)) :
    List String :=
  readings.foldl
    (fun acc p =>
      match p.2 with
      | none => acc ++ [p.1]
      | some r =>
        if readingIsStaleKey (checkStaleness now r) then acc ++ [p.1]
        else acc)
    []

/-- The staleness mutation `_apply_stale_forcing` performs on one
indicator state: with a parseable timestamp, `age > 168` forces red and
`168 ≥ age > 48` forces amber only when the color is below amber; without
a timestamp the `fromisoformat` call raises and the `except: pass`
leaves the state untouched. -/
def forceStale (now : ℚ) (ind : IndData) : IndData :=
  match ind.timestamp with
  | none => ind
  | some ts =>
    let ageHours := now - ts
    if 168 < ageHours then { ind with color := 2, level := "red" }
    else if 48 < ageHours then
      if ind.color < 1 then { ind with color := 1, level := "amber" }
      else ind
    else ind

/-- `PhaseManagerHOPI._apply_stale_forcing`: for each stale name present
in the indicator map, rewrite its state through `forceStale`. -/
def applyStaleForcing (now : ℚ) (inds : Inds) (staleNames : List String) :
    Inds :=
  staleNames.foldl
    (fun acc name =>
      match alookup acc name with
      | none => acc
      | some ind => aset acc name (forceStale now ind))
    inds

/-- The hard-coded critical set loaded by
`PhaseManagerHOPI._load_scoring_rules`. -/
def criticalIndicators : List String :=
  ["MarketVolatility", "DeepfakeShocks", "TaiwanZone",
   "NATOReadiness", "GuardMetros", "DHSRemoval"]

/-- Confirmation polls required (`self.confirmation_polls = 2`). -/
def confirmationPolls : ℕ := 2

/-- One cross-cycle confirmation tracker entry.  The Python `defaultdict`
default is `{'count': 0, 'first_seen': None}`; `first_seen` is only ever
read after being set, so it is embedded as a plain `ℚ` with default `0`. -/
structure TrackerEntry where
  count : ℕ
  firstSeen : ℚ
  deriving Repr, DecidableEq

/-- The confirmation tracker, keyed by indicator name. -/
abbrev Tracker := List (String × TrackerEntry)

/-- One step of `PhaseManagerHOPI._apply_confirmation_rules` for the
indicator `(name, ind)`: non-red clears the tracker entry, critical
indicators confirm immediately, otherwise the consecutive-red count is
maintained within a one-hour window (3600 s). -/
def confirmStep (now : ℚ) (acc : Tracker × Inds) (p : String × IndData) :
    Tracker × Inds :=
  let (tr, out) := acc
  let (name, ind) := p
  if ind.color ≠ 2 then
    (aerase tr name, out ++ [(name, ind)])
  else if name ∈ criticalIndicators then
    (tr, out ++ [(name, { ind with confirmed := true })])
  else
    let e := (alookup tr name).getD ⟨0, 0⟩
    if e.count = 0 then
      (aset tr name ⟨1, now⟩, out ++ [(name, { ind with confirmed := false })])
    else if now - e.firstSeen < 1 then
      (aset tr name ⟨e.count + 1, e.firstSeen⟩,
       out ++ [(name,
         { ind with confirmed := decide (confirmationPolls ≤ e.count + 1) })])
    else
      (aset tr name ⟨1, now⟩, out ++ [(name, { ind with confirmed := false })])

/-- `PhaseManagerHOPI._apply_confirmation_rules`: walk the indicator map,
returning the updated tracker and indicator states. -/
def applyConfirmationRules (now : ℚ) (tracker : Tracker) (inds : Inds) :
    Tracker × Inds :=
  inds.foldl (confirmStep now) (tracker, [])

/-! ## HOPI calculator (`hopi_calculator.py`) -/

/-- A scoring domain: aggregation weight, member indicator names and the
subset of critical members. -/
structure Domain where
  name : String
  weight : ℚ
  indicators : List String
  critical : List String
  deriving Repr, DecidableEq

/-- A pair-cap rule: the two indicator names, the owning domain and the
cap factor relative to one plain red in that domain. -/
structure PairCap where
  fst : String
  snd : String
  domain : String
  capFactor : ℚ
  deriving Repr, DecidableEq

/-- The domain table hard-coded in `HOPICalculator.__init__`, in dict
order. -/
def defaultDomains : List Domain :=
  [⟨"economy", 1,
    ["Treasury", "GroceryCPI", "MarketVolatility", "GDPGrowth",
     "MBridgeSettlements"],
    ["MarketVolatility"]⟩,
   ⟨"jobs_labor", 1,
    ["JoblessClaims", "StrikeTracker", "LuxuryCollapse"], []⟩,
   ⟨"rights_governance", 1,
    ["LegiScan", "ACLEDProtests", "ICEDetention", "TaiwanZone",
     "DoDAutonomy"],
    ["TaiwanZone"]⟩,
   ⟨"security_infrastructure", 5/4,
    ["CISACyber", "GridOutages", "WHODisease", "HormuzRisk",
     "PharmacyShortage"], []⟩,
   ⟨"oil_axis", 1,
    ["CREAOil", "MBridgeSettlements", "OFACDesignations", "JODIOil"], []⟩,
   ⟨"ai_window", 1,
    ["AILayoffs", "AIRansomware", "DeepfakeShocks", "LaborDisplacement"],
    ["DeepfakeShocks"]⟩,
   ⟨"global_conflict", 3/2,
    ["GlobalConflict", "TaiwanPLA", "NATOReadiness", "NuclearTests",
     "RussiaNATO", "DefenseSpending"],
    ["NATOReadiness"]⟩,
   ⟨"domestic_control", 5/4,
    ["DCControl", "GuardMetros", "ICEDetentions", "DHSRemoval",
     "HillLegislation", "LibertyLitigation"],
    ["GuardMetros", "DHSRemoval"]⟩,
   ⟨"cult", 3/4,
    ["AGIMilestones", "SchoolClosures"], []⟩]

/-- The pair-cap rules hard-coded in `HOPICalculator.__init__`. -/
def defaultPairCaps : List PairCap :=
  [⟨"ICEDetention", "ICEDetentions", "domestic_control", 1⟩,
   ⟨"MBridgeSettlements", "CREAOil", "oil_axis", 3/2⟩,
   ⟨"TaiwanZone", "TaiwanPLA", "global_conflict", 2⟩]

/-- Per-indicator point assignments (the `points` dict). -/
abbrev Points := List (String × ℚ)

/-- One assignment of the `_calculate_indicator_points` loop: when the
member `i` of domain `d` is present,
`points[i] = color × domain_weight × (2 if critical else 1)`. -/
def pointsStep (inds : Inds) (d : Domain) (acc : Points) (i : String) :
    Points :=
  match alookup inds i with
  | none => acc
  | some data =>
    aset acc i
      ((data.color : ℚ) * d.weight * (if i ∈ d.critical then 2 else 1))

/-- `HOPICalculator._calculate_indicator_points` over every domain and
every member present in the indicator map.  A name listed in two domains
is written twice, last write winning, as in the Python dict. -/
def calcIndicatorPoints (domains : List Domain) (inds : Inds) : Points :=
  domains.foldl (fun acc d => d.indicators.foldl (pointsStep inds d) acc) []

/-- Weight of a named domain (`self.domains[domain]['weight']`; the name
is always present in the configured rules). -/
def domainWeight (domains : List Domain) (name : String) : ℚ :=
  ((domains.find? (fun d => d.name = name)).map Domain.weight).getD 0

/-- One pair-cap rule applied by `HOPICalculator._apply_pair_caps`: when
both names have point entries and their (pre-cap) total exceeds
`cap = 2 × owning_weight × cap_factor`, both capped entries are scaled by
`cap / pair_total`.  Pair totals are always read from the original
`points`, writes go to the running copy. -/
def applyOneCap (domains : List Domain) (points : Points) (capped : Points)
    (rule : PairCap) : Points :=
  if (alookup points rule.fst).isSome ∧ (alookup points rule.snd).isSome then
    let pa := (alookup points rule.fst).getD 0
    let pb := (alookup points rule.snd).getD 0
    let pairTotal := pa + pb
    let redValue := 2 * domainWeight domains rule.domain
    let cap := redValue * rule.capFactor
    if cap < pairTotal then
      let scale := cap / pairTotal
      aset (aset capped rule.fst (pa * scale)) rule.snd (pb * scale)
    else capped
  else capped

/-- `HOPICalculator._apply_pair_caps` over the configured rule list. -/
def applyPairCaps (domains : List Domain) (pairCaps : List PairCap)
    (points : Points) : Points :=
  pairCaps.foldl (applyOneCap domains points) points

/-- `HOPICalculator._calculate_domain_scores`:
`min(1, Σ points / (2 × weight × member_count))` per domain, `0` for a
domain with no members, in domain order. -/
def calcDomainScores (domains : List Domain) (points : Points) :
    List (String × ℚ) :=
  domains.map
    (fun d =>
      let domainPoints := (d.indicators.map
        (fun i => (alookup points i).getD 0)).sum
      if 0 < d.indicators.length then
        let maxPossible := 2 * d.weight * (d.indicators.length : ℚ)
        (d.name, min 1 (domainPoints / maxPossible))
      else (d.name, 0))

/-- Number of indicators of domain `d` whose color strictly rose between
the polls `oldPoll` and `currentPoll` (both must contain the name). -/
def risingCount (d : Domain) (oldPoll currentPoll : Inds) : ℕ :=
  d.indicators.countP
    (fun i =>
      match alookup currentPoll i, alookup oldPoll i with
      | some cur, some old => decide (old.color < cur.color)
      | _, _ => false)

/-- `HOPICalculator._apply_trend_bonus` over the updated history: with at
least two stored polls, compare the current poll against the one
`min 3 (len−1)` polls back and add a flat `+0.10` (still capped at `1`)
to every domain with at least two rising members. -/
def applyTrendBonus (domains : List Domain) (history : List Inds)
    (scores : List (String × ℚ)) : List (String × ℚ) :=
  if history.length < 2 then scores
  else
    let lookback := min 3 (history.length - 1)
    let oldPoll := (history.drop (history.length - 1 - lookback)).headD []
    let currentPoll := history.getLastD []
    scores.map
      (fun s =>
        match domains.find? (fun d => d.name = s.1) with
        | some d =>
          if 2 ≤ risingCount d oldPoll currentPoll then
            (s.1, min 1 (s.2 + 1/10))
          else s
        | none => s)

/-- The distinct composite-weight table hard-coded in
`HOPICalculator._calculate_hopi` (default weight `1`). -/
def hopiWeight (name : String) : ℚ :=
  if name = "global_conflict" then 3/2
  else if name = "security_infrastructure" then 5/4
  else if name = "domestic_control" then 5/4
  else 1

/-- `HOPICalculator._calculate_hopi`: weighted mean of the domain scores
under `hopiWeight`, `0` when the total weight is not positive. -/
def calcHopi (scores : List (String × ℚ)) : ℚ :=
  let totalWeighted := (scores.map (fun s => s.2 * hopiWeight s.1)).sum
  let totalWeight := (scores.map (fun s => hopiWeight s.1)).sum
  if 0 < totalWeight then totalWeighted / totalWeight else 0

/-- Red tallies returned by `HOPICalculator._count_reds`. -/
structure RedCounts where
  total : ℕ
  critical : ℕ
  singleSource : ℕ
  deriving Repr, DecidableEq

/-- Union of all domains' critical member lists. -/
def allCritical (domains : List Domain) : List String :=
  domains.foldl (fun acc d => acc ++ d.critical) []

/-- `HOPICalculator._count_reds`: total reds, reds in any domain's
critical set, and reds that are unconfirmed or from the `mock` source. -/
def countReds (domains : List Domain) (inds : Inds) : RedCounts :=
  { total := inds.countP (fun p => p.2.color = 2)
    critical := inds.countP
      (fun p => p.2.color = 2 ∧ p.1 ∈ allCritical domains)
    singleSource := inds.countP
      (fun p => p.2.color = 2 ∧ (p.2.confirmed = false ∨ p.2.source = "mock")) }

/-- `HOPICalculator._calculate_confidence`:
`1 − stale/total − 0.15 × single_source_reds / max(1, total_reds)`,
clamped to `[0,1]` (the stale term is skipped when there are no
indicators). -/
def calcConfidence (domains : List Domain) (inds : Inds)
    (staleNames : List String) : ℚ :=
  let total := inds.length
  let staleCount := staleNames.length
  let reds := countReds domains inds
  let totalReds : ℕ := max 1 reds.total
  let c := 1 - (if 0 < total then (staleCount : ℚ) / total else 0)
    - (3/20) * ((reds.singleSource : ℚ) / totalReds)
  max 0 (min 1 c)

/-- Banker's rounding of a rational to the nearest integer, matching
Python's `round`: halves go to the even neighbour. -/
def roundHalfEven (q : ℚ) : ℤ :=
  let f := ⌊q⌋
  let frac := q - f
  if frac < 1/2 then f
  else if 1/2 < frac then f + 1
  else if f % 2 = 0 then f else f + 1

/-- Python `round(x, 3)`. -/
def round3 (q : ℚ) : ℚ := (roundHalfEven (q * 1000) : ℚ) / 1000

/-- `maxlen`-bounded append used for `self.history` (keep the last 10). -/
def pushHistory {α : Type} (maxLen : ℕ) (h : List α) (x : α) : List α :=
  let h2 := h ++ [x]
  if maxLen < h2.length then h2.drop (h2.length - maxLen) else h2

/-- The record returned by `HOPICalculator.calculate` (scores rounded to
three decimals as in the source). -/
structure HopiResult where
  hopi : ℚ
  confidence : ℚ
  domainScores : List (String × ℚ)
  totalReds : ℕ
  criticalReds : ℕ
  singleSourceReds : ℕ
  staleCount : ℕ
  deriving Repr, DecidableEq

/-- `HOPICalculator.calculate`: append the poll to the bounded history,
assign points, apply pair caps, normalize per domain, add the trend
bonus, reduce to the composite score and confidence, and tally reds. -/
def calculate (domains : List Domain) (pairCaps : List PairCap)
    (history : List Inds) (inds : Inds) (staleNames : List String) :
    HopiResult :=
  let history2 := pushHistory 10 history inds
  let points := calcIndicatorPoints domains inds
  let capped := applyPairCaps domains pairCaps points
  let scores := calcDomainScores domains capped
  let bonused := applyTrendBonus domains history2 scores
  let hopi := calcHopi bonused
  let confidence := calcConfidence domains inds staleNames
  let reds := countReds domains inds
  { hopi := round3 hopi
    confidence := round3 confidence
    domainScores := bonused.map (fun s => (s.1, round3 s.2))
    totalReds := reds.total
    criticalReds := reds.critical
    singleSourceReds := reds.singleSource
    staleCount := staleNames.length }

/-! ## Phase controller (`phase_controller.py`) -/

/-- One stored poll (`self.poll_history` entry): the composite score, the
domain scores and the indicator states of that cycle. -/
structure Poll where
  hopi : ℚ
  domainScores : List (String × ℚ)
  indicators : Inds
  deriving Repr, DecidableEq

/-- The phase score-band table (`self.phases`), as
`(phase, hopi_range_low, hopi_range_high)`. -/
def phasesTable : List (ℚ × ℚ × ℚ) :=
  [(0, 0, 1/10), (1, 1/10, 1/5), (2, 1/5, 3/10), (5/2, 3/10, 7/20),
   (3, 7/20, 9/20), (4, 9/20, 11/20), (5, 11/20, 13/20), (6, 13/20, 3/4),
   (7, 3/4, 17/20), (8, 17/20, 19/20), (9, 19/20, 1)]

/-- Upper end of a phase's `hopi_range` (`self.phases[p]['hopi_range'][1]`;
every phase produced by the target lookup is a key of the table). -/
def phaseRangeHi (p : ℚ) : ℚ :=
  ((phasesTable.find? (fun e => e.1 = p)).map (fun e => e.2.2)).getD 0

/-- `PhaseController._determine_target_phase`: the ordered `if`/`elif`
chain over the composite score, the amber and red counts and the number
of domains scoring at least `0.60`. -/
def determineTargetPhase (hopi : ℚ) (domainScores : List (String × ℚ))
    (inds : Inds) : ℚ :=
  let highDomains := domainScores.countP (fun s => 3/5 ≤ s.2)
  let amberCount := inds.countP (fun p => p.2.color = 1)
  let redCount := inds.countP (fun p => p.2.color = 2)
  if hopi < 1/10 ∧ amberCount = 0 then 0
  else if hopi < 1/5 ∨ 1 ≤ amberCount then 1
  else if hopi < 3/10 ∨ 2 ≤ amberCount then 2
  else if hopi < 7/20 then 5/2
  else if hopi < 9/20 ∨ 1 ≤ redCount then 3
  else if hopi < 11/20 ∧ 1 ≤ highDomains then 4
  else if hopi < 13/20 ∧ 2 ≤ highDomains then 5
  else if hopi < 3/4 ∧ 2 ≤ highDomains then 6
  else if hopi < 17/20 ∧ 3 ≤ highDomains then 7
  else if hopi < 19/20 ∧ 4 ≤ highDomains then 8
  else 9

/-- `poll_history[-2]`, defined for histories of length at least two. -/
def secondLast (l : List Poll) : Poll :=
  (l.get? (l.length - 2)).getD ⟨0, [], []⟩

/-- `PhaseController._apply_hysteresis`:
escalation needs the previous poll's recomputed target to be at least the
current target; de-escalation needs 72 h since the last change, zero reds
and the last three composite scores at or below the target band's upper
end. -/
def applyHysteresis (currentPhase lastPhaseChange : ℚ)
    (pollHistory : List Poll) (now : ℚ) (target : ℚ) (totalReds : ℕ) : ℚ :=
  if currentPhase < target then
    if 2 ≤ pollHistory.length then
      let prev := secondLast pollHistory
      let prevTarget :=
        determineTargetPhase prev.hopi prev.domainScores prev.indicators
      if target ≤ prevTarget then target else currentPhase
    else currentPhase
  else if target < currentPhase then
    if now - lastPhaseChange < 72 then currentPhase
    else if 0 < totalReds then currentPhase
    else if 3 ≤ pollHistory.length then
      let recentHopis :=
        (pollHistory.drop (pollHistory.length - 3)).map Poll.hopi
      if recentHopis.all (fun h => decide (h ≤ phaseRangeHi target)) then
        target
      else currentPhase
    else currentPhase
  else currentPhase

/-- One critical jump rule (`self.critical_rules`).  Every condition in
the source table is of the form `Name:red`, checked as `color == 2`, so
conditions are embedded as the indicator names; the `window_hours` field
of the first rule is never checked ("assume conditions are current"). -/
structure CriticalRule where
  conds : List String
  minPhase : ℚ
  extraCond : Option (Inds → Bool)
  extraPhase : ℚ

/-- A `Name:red` condition: the indicator is present with color `2`. -/
def condRed (inds : Inds) (name : String) : Bool :=
  match alookup inds name with
  | some d => decide (d.color = 2)
  | none => false

/-- The critical jump rule table of `PhaseController.__init__`, with the
NATO rule's `extra_condition` lambda
(`indicators.get('RussiaNATO', {}).get('value', 0) >= 75`). -/
def criticalRulesList : List CriticalRule :=
  [⟨["MarketVolatility", "DeepfakeShocks"], 7, none, 0⟩,
   ⟨["NATOReadiness"], 6,
    some (fun inds =>
      decide ((75 : ℚ) ≤ ((alookup inds "RussiaNATO").map IndData.value).getD 0)),
    1⟩,
   ⟨["GuardMetros"], 5, none, 0⟩,
   ⟨["DHSRemoval"], 5, none, 0⟩]

/-- One iteration of the `_check_critical_jumps` loop: when every
condition of the rule is met, raise the accumulator to the rule's
minimum phase (plus the extra phase when the extra condition holds). -/
def criticalStep (inds : Inds) (acc : ℚ) (r : CriticalRule) : ℚ :=
  if r.conds.all (condRed inds) then
    let extra :=
      match r.extraCond with
      | some f => if f inds then r.extraPhase else 0
      | none => 0
    max acc (r.minPhase + extra)
  else acc

/-- `PhaseController._check_critical_jumps`: the maximum forced minimum
phase over the rules whose conditions are all met (`0` when none fire). -/
def checkCriticalJumps (inds : Inds) : ℚ :=
  criticalRulesList.foldl (criticalStep inds) 0

/-- The cross-cycle state of `PhaseController` that the update logic
reads: the current phase, the bounded poll history and the time of the
last phase change.  The transition audit log (`self.phase_history`) is
never read back by the logic and is not modelled. -/
structure ControllerState where
  currentPhase : ℚ
  pollHistory : List Poll
  lastPhaseChange : ℚ
  deriving Repr, DecidableEq

/-- The fields of `PhaseController.update`'s returned dict used by the
claims. -/
structure UpdateResult where
  phase : ℚ
  changed : Bool
  targetPhase : ℚ
  deriving Repr, DecidableEq

/-- `PhaseController.update`: store the poll, compute the target phase,
apply hysteresis, raise to any critical jump minimum, apply the
confidence gate (`confidence < 0.60` with zero critical reds caps phases
above `3` at `3`), and record a change. -/
def update (st : ControllerState) (now : ℚ) (hr : HopiResult)
    (inds : Inds) : ControllerState × UpdateResult :=
  let hist2 := pushHistory 10 st.pollHistory ⟨hr.hopi, hr.domainScores, inds⟩
  let target := determineTargetPhase hr.hopi hr.domainScores inds
  let afterHyst :=
    applyHysteresis st.currentPhase st.lastPhaseChange hist2 now target
      hr.totalReds
  let crit := checkCriticalJumps inds
  let afterCrit := if afterHyst < crit then crit else afterHyst
  let newPhase :=
    if hr.confidence < 3/5 ∧ 3 < afterCrit ∧ hr.criticalReds = 0 then
      min afterCrit 3
    else afterCrit
  let changed := decide (newPhase ≠ st.currentPhase)
  ({ currentPhase := newPhase
     pollHistory := hist2
     lastPhaseChange := if changed then now else st.lastPhaseChange },
   ⟨newPhase, changed, target⟩)

/-! ## Pipeline glue (`PhaseManagerHOPI.evaluate`) -/

/-- The indicator-preparation stages of `PhaseManagerHOPI.evaluate`:
prepare, stale forcing, confirmation rules.  Returns the updated tracker
and the indicator states handed to the HOPI calculator. -/
def pipelineIndicators (now : ℚ) (tracker : Tracker)
    (readings : List (String × Option Reading))
    (threatLevels : List (String × String)) : Tracker × Inds :=
  let inds := prepareIndicators readings threatLevels
  let staleNames := checkStaleData now readings
  let inds2 := applyStaleForcing now inds staleNames
  applyConfirmationRules now tracker inds2

/-- Cross-cycle state owned by `PhaseManagerHOPI` and its components. -/
structure ManagerState where
  tracker : Tracker
  calcHistory : List Inds
  controller : ControllerState
  deriving Repr, DecidableEq

/-- `PhaseManagerHOPI.evaluate`: run the indicator stages, compute the
HOPI result and update the phase controller; returns the new state with
the phase result and HOPI record. -/
def evaluate (ms : ManagerState) (now : ℚ)
    (readings : List (String × Option Reading))
    (threatLevels : List (String × String)) :
    ManagerState × (UpdateResult × HopiResult) :=
  let staleNames := checkStaleData now readings
  let (tracker2, inds3) := pipelineIndicators now ms.tracker readings
    threatLevels
  let hr := calculate defaultDomains defaultPairCaps ms.calcHistory inds3
    staleNames
  let (ctrl2, pres) := update ms.controller now hr inds3
  ({ tracker := tracker2
     calcHistory := pushHistory 10 ms.calcHistory inds3
     controller := ctrl2 },
   (pres, hr))

/-! ## Derived configuration views and spec-side comparison definitions -/

/-- Weighted numerator of the composite score:
`Σ domain_score × composite_weight`. -/
def hopiNum (scores : List (String × ℚ)) : ℚ :=
  (scores.map (fun s => s.2 * hopiWeight s.1)).sum

/-- Denominator of the composite score: `Σ composite_weight` over the
entries of the domain-score map. -/
def hopiDen (scores : List (String × ℚ)) : ℚ :=
  (scores.map (fun s => hopiWeight s.1)).sum

/-- Composite score as the spec's §4.4 error-handling rule describes it:
a domain with zero members is excluded from the composite-weight
denominator.  Stated for comparison with `calcHopi`, which the source
uses. -/
def specHopiEmptyExcluded (domains : List Domain) (points : Points) : ℚ :=
  let scores := calcDomainScores domains points
  let kept := scores.filter
    (fun s =>
      ((domains.find? (fun d => d.name = s.1)).map
        (fun d => !d.indicators.isEmpty)).getD false)
  calcHopi kept

/-- The initial controller state of `PhaseController.__init__`:
phase `0`, empty poll history (the initial `last_phase_change` clock
value is taken as `0`). -/
def initialControllerState : ControllerState := ⟨0, [], 0⟩

/-! ## Concrete inputs used by the claim theorems -/

/-- Indicator state with the given color, confirmation flag and source
(value `0`, no timestamp). -/
def mkInd (color : ℕ) (confirmed : Bool) (source : String) : IndData :=
  ⟨color, 0, "", source, none, confirmed⟩

/-- Raise (or set) the color of one named indicator, leaving every other
field and entry unchanged. -/
def setColor (inds : Inds) (name : String) (c : ℕ) : Inds :=
  inds.map (fun p => if p.1 = name then (p.1, { p.2 with color := c }) else p)

/-- Exactly one red (`Treasury`, confirmed), every other present
indicator green and fresh. -/
def c3Inds : Inds :=
  [("Treasury", mkInd 2 true "live"), ("GroceryCPI", mkInd 0 true "live"),
   ("JoblessClaims", mkInd 0 true "live")]

/-- `MBridgeSettlements` red, `CREAOil` amber, `CISACyber` amber. -/
def c4IndsA : Inds :=
  [("MBridgeSettlements", mkInd 2 true "live"),
   ("CREAOil", mkInd 1 true "live"), ("CISACyber", mkInd 1 true "live")]

/-- Same input with `CREAOil` raised from amber to red. -/
def c4IndsB : Inds := setColor c4IndsA "CREAOil" 2

/-- A single amber `SchoolClosures`, everything else green/absent. -/
def c4PhIndsA : Inds := [("SchoolClosures", mkInd 1 true "live")]

/-- Same input with `SchoolClosures` raised from amber to red. -/
def c4PhIndsB : Inds := setColor c4PhIndsA "SchoolClosures" 2

/-- A previous poll whose recomputed target phase is `1` (one amber,
low composite). -/
def c4PrevPoll : Poll := ⟨1/40, [], c4PhIndsA⟩

/-- Controller state before the C4 phase comparison: phase `0`, one
stored poll targeting `1`. -/
def c4State : ControllerState := ⟨0, [c4PrevPoll], 0⟩

/-- A previous all-green poll (recomputed target `0`). -/
def c5PrevPoll : Poll := ⟨0, [], []⟩

/-- Controller state before the C5 counterexample cycle. -/
def c5State : ControllerState := ⟨0, [c5PrevPoll], 0⟩

/-- `GuardMetros` red (a critical-rule trigger) plus one amber. -/
def c5Inds : Inds :=
  [("GuardMetros", mkInd 2 true "live"), ("CISACyber", mkInd 1 true "live")]

/-- Readings for C2: a green-valued reading 200 h old, and a missing
reading. -/
def c2Readings : List (String × Option Reading) :=
  [("GroceryCPI", some ⟨2, some 800, some "live"⟩), ("Treasury", none)]

/-- Threat levels for C2 (`GroceryCPI` value-derived green). -/
def c2Levels : List (String × String) := [("GroceryCPI", "green")]

/-- A single `MBridgeSettlements` red. -/
def c8Inds : Inds := [("MBridgeSettlements", mkInd 2 true "live")]

/-- Two-domain configuration with one zero-member domain. -/
def c9Domains : List Domain := [⟨"a", 1, ["X"], []⟩, ⟨"b", 1, [], []⟩]

/-- A single red member of the non-empty C9 domain. -/
def c9Inds : Inds := [("X", mkInd 2 true "live")]

/-- Tracker holding a count-1 entry for `JoblessClaims` first seen at
time `0`. -/
def c10Tracker : Tracker := [("JoblessClaims", ⟨1, 0⟩)]

/-- Both `MarketVolatility` and `DeepfakeShocks` confirmed red. -/
def c7Inds : Inds :=
  [("MarketVolatility", mkInd 2 true "live"),
   ("DeepfakeShocks", mkInd 2 true "live")]

/-! ## Relations used by the monotonicity development -/

/-- Pointwise relation between an indicator map and the same map with
the color of the single indicator `X` raised: keys agree in order,
colors never decrease, and entries of other names are unchanged. -/
def IndsRel (X : String) (l l2 : Inds) : Prop :=
  List.Forall₂
    (fun a b => b.1 = a.1 ∧ a.2.color ≤ b.2.color ∧ (a.1 ≠ X → b.2 = a.2))
    l l2

/-- Pointwise relation between point maps: keys agree in order, the
value at `X` never decreases, all other values are unchanged. -/
def PtsRel (X : String) (p p2 : Points) : Prop :=
  List.Forall₂
    (fun u v => v.1 = u.1 ∧ u.2 ≤ v.2 ∧ (u.1 ≠ X → v.2 = u.2))
    p p2

/-- Pointwise relation between domain-score maps: keys agree in order
and scores never decrease. -/
def ScoresRel (s s2 : List (String × ℚ)) : Prop :=
  List.Forall₂ (fun u v => v.1 = u.1 ∧ u.2 ≤ v.2) s s2

/-! ## General association-list lemmas -/

theorem alookup_aset {α : Type} (l : List (String × α)) (k k' : String)
    (v : α) :
    alookup (aset l k v) k' = if k = k' then some v else alookup l k' := by
  induction l with
  | nil =>
    by_cases h : k = k' <;> simp [aset, alookup, h]
  | cons p t ih =>
    obtain ⟨k₀, v₀⟩ := p
    by_cases h₀ : k₀ = k
    · subst h₀
      by_cases h : k₀ = k' <;> simp [aset, alookup, h]
    · simp only [aset, if_neg h₀, alookup]
      by_cases h : k₀ = k'
      · subst h
        have : ¬ k = k₀ := fun hh => h₀ hh.symm
        simp [this]
      · simp [h, ih]

theorem alookup_aerase {α : Type} (l : List (String × α)) (k k' : String)
    (hne : k ≠ k') :
    alookup (aerase l k) k' = alookup l k' := by
  induction l with
  | nil => simp [aerase]
  | cons p t ih =>
    obtain ⟨k₀, v₀⟩ := p
    by_cases h₀ : k₀ = k
    · subst h₀
      have : ¬ k₀ = k' := fun hh => hne hh
      simp [aerase, alookup, this]
    · simp only [aerase, if_neg h₀, alookup]
      by_cases h : k₀ = k' <;> simp [h, ih]

theorem alookup_eq_none_of_not_mem {α : Type} {l : List (String × α)}
    {k : String} (h : k ∉ l.map Prod.fst) : alookup l k = none := by
  induction l with
  | nil => rfl
  | cons p t ih =>
    obtain ⟨k₀, v₀⟩ := p
    simp only [List.map_cons, List.mem_cons] at h
    push_neg at h
    have hne : ¬ k₀ = k := fun hh => h.1 hh.symm
    simp only [alookup, if_neg hne]
    exact ih h.2

theorem alookup_aerase_self {α : Type} {l : List (String × α)} {k : String}
    (h : (l.map Prod.fst).Nodup) : alookup (aerase l k) k = none := by
  induction l with
  | nil => rfl
  | cons p t ih =>
    obtain ⟨k₀, v₀⟩ := p
    simp only [List.map_cons, List.nodup_cons] at h
    by_cases h₀ : k₀ = k
    · subst h₀
      simp only [aerase, if_pos rfl]
      exact alookup_eq_none_of_not_mem h.1
    · simp only [aerase, if_neg h₀, alookup, if_neg h₀]
      exact ih h.2

theorem alookup_mem {α : Type} {l : List (String × α)} {k : String} {v : α}
    (h : alookup l k = some v) : (k, v) ∈ l := by
  induction l with
  | nil => simp [alookup] at h
  | cons p t ih =>
    obtain ⟨k₀, v₀⟩ := p
    by_cases h₀ : k₀ = k
    · subst h₀
      rw [alookup, if_pos rfl] at h
      have hv := Option.some.inj h
      subst hv
      exact List.mem_cons_self _ _
    · simp only [alookup, if_neg h₀] at h
      exact List.mem_cons_of_mem _ (ih h)

/-! ## Staleness monotonicity (C1) -/

theorem forceStale_color_mono (now : ℚ) (d : IndData) (h : d.color ≤ 2) :
    d.color ≤ (forceStale now d).color ∧ (forceStale now d).color ≤ 2 := by
  obtain ⟨c, v, lv, src, ts, cf⟩ := d
  simp only [forceStale] at *
  cases ts with
  | none => exact ⟨le_refl _, h⟩
  | some t =>
    simp only
    by_cases h1 : 168 < now - t
    · simp only [if_pos h1]
      exact ⟨h, le_refl _⟩
    · simp only [if_neg h1]
      by_cases h2 : 48 < now - t
      · simp only [if_pos h2]
        by_cases h3 : c < 1
        · simp only [if_pos h3]
          constructor
          · exact Nat.le_of_lt_succ (Nat.lt_succ_of_lt h3)
          · exact one_le_two
        · simp only [if_neg h3]
          exact ⟨le_refl _, h⟩
      · simp only [if_neg h2]
        exact ⟨le_refl _, h⟩

theorem applyStaleForcing_lookup (now : ℚ) (staleNames : List String) :
    ∀ (inds : Inds) (name : String) (d : IndData),
      alookup inds name = some d → d.color ≤ 2 →
      ∃ d2, alookup (applyStaleForcing now inds staleNames) name = some d2 ∧
        d.color ≤ d2.color ∧ d2.color ≤ 2 := by
  induction staleNames with
  | nil =>
    intro inds name d h hc
    exact ⟨d, h, le_refl _, hc⟩
  | cons s t ih =>
    intro inds name d h hc
    have hstep : applyStaleForcing now inds (s :: t) =
        applyStaleForcing now
          (match alookup inds s with
           | none => inds
           | some ind => aset inds s (forceStale now ind)) t := rfl
    rw [hstep]
    cases hs : alookup inds s with
    | none => simp only [hs]; exact ih inds name d h hc
    | some ind =>
      simp only [hs]
      by_cases hsn : s = name
      · subst hsn
        rw [h] at hs
        have hd := Option.some.inj hs
        subst hd
        have hmono := forceStale_color_mono now d hc
        have hl : alookup (aset inds s (forceStale now d)) s =
            some (forceStale now d) := by
          rw [alookup_aset]; simp
        obtain ⟨d3, h3, h3a, h3b⟩ :=
          ih (aset inds s (forceStale now d)) s (forceStale now d) hl hmono.2
        exact ⟨d3, h3, le_trans hmono.1 h3a, h3b⟩
      · have hl : alookup (aset inds s (forceStale now ind)) name = some d := by
          rw [alookup_aset, if_neg hsn]; exact h
        exact ih _ name d hl hc

/-- C1 (amended): the HOPI pipeline's staleness forcing
(`_apply_stale_forcing`) never lowers an indicator's color — the final
color is at least the value-derived color and stays a valid color — while
the legacy `StaleDataHandler.apply_stale_level` replaces the threat level
with the forced level outright and can lower a value-derived red to the
amber staleness floor (see the counterexample). -/
theorem C1_stale_forcing_never_lowers (now : ℚ) (inds : Inds)
    (staleNames : List String) (name : String) (d : IndData)
    (h : alookup inds name = some d) (hc : d.color ≤ 2) :
    ∃ d2, alookup (applyStaleForcing now inds staleNames) name = some d2 ∧
      d.color ≤ d2.color ∧ d2.color ≤ 2 :=
  applyStaleForcing_lookup now staleNames inds name d h hc

/-- Witness for C1: a red indicator with a 200-hour-old timestamp in the
stale set keeps a color at least red after `_apply_stale_forcing`. -/
theorem C1_witness :
    alookup [("GridOutages", mkInd 2 true "live")] "GridOutages" =
      some (mkInd 2 true "live") ∧
    (mkInd 2 true "live").color ≤ 2 ∧
    ∃ d2,
      alookup (applyStaleForcing 200 [("GridOutages", mkInd 2 true "live")]
        ["GridOutages"]) "GridOutages" = some d2 ∧
      (mkInd 2 true "live").color ≤ d2.color ∧ d2.color ≤ 2 :=
  ⟨rfl, by decide,
   C1_stale_forcing_never_lowers 200 [("GridOutages", mkInd 2 true "live")]
     ["GridOutages"] "GridOutages" (mkInd 2 true "live") rfl (by decide)⟩

/-- C1 (counterexample): `StaleDataHandler.apply_stale_level` on a
value-derived red with a stale amber floor returns amber, a strictly
lower color — the forced level replaces rather than `max`es. -/
theorem C1_cex :
    applyStaleLevel "red" ⟨true, some "amber", none⟩ = "amber" ∧
    levelRank "amber" < levelRank "red" := by
  refine ⟨rfl, ?_⟩
  decide

/-! ## Stale readings entering scoring (C2) -/

/-- C2 (code bug): a reading 200 h old (beyond the 168 h red limit) whose
value-derived color is green enters scoring with color `0` — the stale
set built by `_check_stale_data` misses it because it reads the
`is_stale` key that `check_staleness` never writes — and a missing
reading produces no indicator state at all (instead of a forced-red
one). -/
theorem C2_stale_green_enters_scoring :
    (checkStaleness 1000 ⟨2, some 800, some "live"⟩).stale = true ∧
    (checkStaleness 1000 ⟨2, some 800, some "live"⟩).forceLevel = some "red" ∧
    redHours ≤ 1000 - 800 ∧
    checkStaleData 1000 c2Readings = ["Treasury"] ∧
    ((alookup (pipelineIndicators 1000 [] c2Readings c2Levels).2
      "GroceryCPI").map IndData.color = some 0) ∧
    alookup (pipelineIndicators 1000 [] c2Readings c2Levels).2 "Treasury" =
      none := by
  refine ⟨?_, ?_, ?_, ?_, ?_, ?_⟩ <;>
    (simp +decide [checkStaleness, checkStaleData, pipelineIndicators,
      prepareIndicators, applyStaleForcing, applyConfirmationRules,
      confirmStep, forceStale, c2Readings, c2Levels, alookup, aset, aerase,
      colorOfLevel, levelRank, readingIsStaleKey, redHours, amberHours,
      criticalIndicators, mkInd]
     try norm_num [Int.fract, inf_eq_min, min_def])

/-! ## Single red target phase (C3) -/

/-- C3 (code bug): with exactly one confirmed red (`Treasury`) and every
other indicator green and fresh, the composite is `0.02` and the target
phase lookup returns `0`, not `3`: the `red_count >= 1` disjunct sits
too late in the `elif` chain to fire at low composite scores, although
the controller's own phase table documents phase 3 as
`HOPI 0.35-0.44 or any red`. -/
theorem C3_single_red_target_zero :
    c3Inds.countP (fun p => p.2.color = 2) = 1 ∧
    (calculate defaultDomains defaultPairCaps [] c3Inds []).hopi = 1/50 ∧
    determineTargetPhase
      (calculate defaultDomains defaultPairCaps [] c3Inds []).hopi
      (calculate defaultDomains defaultPairCaps [] c3Inds []).domainScores
      c3Inds = 0 := by
  refine ⟨by decide, ?_, ?_⟩ <;>
    (simp +decide [calculate, calcIndicatorPoints, pointsStep, applyPairCaps, applyOneCap,
      calcDomainScores, applyTrendBonus, calcHopi, pushHistory,
      defaultDomains, defaultPairCaps, c3Inds, mkInd, alookup, aset,
      hopiWeight, domainWeight, round3, roundHalfEven, calcConfidence,
      countReds, allCritical, determineTargetPhase]
     try norm_num [Int.fract, inf_eq_min, min_def])

/-! ## Domain membership (C8) -/

/-- C8 (counterexample): `MBridgeSettlements` is listed in the member
lists of two domains (`economy` and `oil_axis`), and a single
`MBridgeSettlements` red puts positive points into both domain scores. -/
theorem C8_cex :
    (defaultDomains.filter
      (fun d => "MBridgeSettlements" ∈ d.indicators)).map Domain.name =
      ["economy", "oil_axis"] ∧
    alookup (calcDomainScores defaultDomains
      (applyPairCaps defaultDomains defaultPairCaps
        (calcIndicatorPoints defaultDomains c8Inds))) "economy" =
      some (1/5) ∧
    alookup (calcDomainScores defaultDomains
      (applyPairCaps defaultDomains defaultPairCaps
        (calcIndicatorPoints defaultDomains c8Inds))) "oil_axis" =
      some (1/4) ∧
    (0 : ℚ) < 1/5 ∧ (0 : ℚ) < 1/4 := by
  refine ⟨by decide, ?_, ?_, by norm_num, by norm_num⟩ <;>
    (simp +decide [calcIndicatorPoints, pointsStep, applyPairCaps, applyOneCap,
      calcDomainScores, defaultDomains, defaultPairCaps, c8Inds, mkInd,
      alookup, aset, domainWeight]
     try norm_num [inf_eq_min, min_def])

/-- C8 (amended): every indicator name shared between two distinct
configured domains is `MBridgeSettlements`; all other indicators belong
to exactly one domain's member list (and their points are summed into
that domain's score only), while `MBridgeSettlements` is a member of
both `economy` and `oil_axis` and is summed into both. -/
theorem C8_membership_unique_except_mbridge :
    List.Pairwise
      (fun d1 d2 => ∀ n, n ∈ d1.indicators → n ∈ d2.indicators →
        n = "MBridgeSettlements")
      defaultDomains := by
  decide

/-! ## Empty domains and the composite denominator (C9) -/

/-- C9 (counterexample): with a weight-1 domain `a` holding one red
member and a zero-member domain `b`, the source composite is `1/2` —
`b`'s composite weight stays in the denominator — whereas the spec's
rule (exclude empty domains from the denominator) gives `1`. -/
theorem C9_cex :
    calcHopi (calcDomainScores c9Domains
      (calcIndicatorPoints c9Domains c9Inds)) = 1/2 ∧
    specHopiEmptyExcluded c9Domains
      (calcIndicatorPoints c9Domains c9Inds) = 1 ∧
    ((1 : ℚ)/2) ≠ 1 := by
  refine ⟨?_, ?_, by norm_num⟩ <;>
    (simp +decide [calcIndicatorPoints, pointsStep, calcDomainScores, calcHopi,
      specHopiEmptyExcluded, c9Domains, c9Inds, mkInd, alookup, aset,
      hopiWeight]
     try norm_num [inf_eq_min, min_def])

theorem hopiWeight_pos (name : String) : 0 < hopiWeight name := by
  unfold hopiWeight
  split
  · norm_num
  · split
    · norm_num
    · split <;> norm_num

theorem hopiDen_nonneg (scores : List (String × ℚ)) : 0 ≤ hopiDen scores := by
  induction scores with
  | nil => simp [hopiDen]
  | cons s t ih =>
    simp only [hopiDen, List.map_cons, List.sum_cons]
    have := hopiWeight_pos s.1
    have ih2 : 0 ≤ (t.map (fun s => hopiWeight s.1)).sum := ih
    linarith

/-- C9 (amended): a zero-member domain receives domain score `0` and the
composite never divides by zero, but the empty domain's composite weight
is **included** in the weighted-mean denominator: appending an empty
domain named `nm` to any configuration turns the composite into
`hopiNum / (hopiDen + hopiWeight nm)` over the original scores. -/
theorem C9_empty_domain_score :
    (∀ (domains : List Domain) (points : Points) (d : Domain),
      d ∈ domains → d.indicators = [] →
      (d.name, (0 : ℚ)) ∈ calcDomainScores domains points) ∧
    (∀ (cfg : List Domain) (points : Points) (nm : String) (w : ℚ)
      (crit : List String),
      calcHopi (calcDomainScores (cfg ++ [⟨nm, w, [], crit⟩]) points) =
        hopiNum (calcDomainScores cfg points) /
          (hopiDen (calcDomainScores cfg points) + hopiWeight nm)) := by
  constructor
  · intro domains points d hmem hempty
    have : (fun d : Domain =>
        let domainPoints := (d.indicators.map
          (fun i => (alookup points i).getD 0)).sum
        if 0 < d.indicators.length then
          let maxPossible := 2 * d.weight * (d.indicators.length : ℚ)
          (d.name, min 1 (domainPoints / maxPossible))
        else (d.name, 0)) d = (d.name, (0 : ℚ)) := by
      simp [hempty]
    rw [calcDomainScores]
    rw [← this]
    exact List.mem_map_of_mem _ hmem
  · intro cfg points nm w crit
    have hsplit : calcDomainScores (cfg ++ [⟨nm, w, [], crit⟩]) points =
        calcDomainScores cfg points ++ [(nm, 0)] := by
      rw [calcDomainScores, calcDomainScores, List.map_append]
      simp
    rw [hsplit]
    have hnum : hopiNum (calcDomainScores cfg points ++ [(nm, 0)]) =
        hopiNum (calcDomainScores cfg points) := by
      simp [hopiNum]
    have hden : hopiDen (calcDomainScores cfg points ++ [(nm, 0)]) =
        hopiDen (calcDomainScores cfg points) + hopiWeight nm := by
      simp [hopiDen]
    have hpos : 0 < hopiDen (calcDomainScores cfg points ++ [(nm, 0)]) := by
      rw [hden]
      have h1 := hopiDen_nonneg (calcDomainScores cfg points)
      have h2 := hopiWeight_pos nm
      linarith
    have hc : calcHopi (calcDomainScores cfg points ++ [(nm, 0)]) =
        if 0 < hopiDen (calcDomainScores cfg points ++ [(nm, 0)]) then
          hopiNum (calcDomainScores cfg points ++ [(nm, 0)]) /
            hopiDen (calcDomainScores cfg points ++ [(nm, 0)])
        else 0 := rfl
    rw [hc, if_pos hpos, hnum, hden]

/-- Witness for C9: the empty domain `b` of the two-domain configuration
gets score `0`, and the composite with the empty domain appended is the
original numerator over the enlarged denominator. -/
theorem C9_witness :
    (⟨"b", 1, [], []⟩ : Domain) ∈ c9Domains ∧
    (Domain.indicators ⟨"b", 1, [], []⟩ = ([] : List String)) ∧
    ("b", (0 : ℚ)) ∈ calcDomainScores c9Domains [] ∧
    calcHopi (calcDomainScores ([⟨"a", 1, ["X"], []⟩] ++ [⟨"b", 1, [], []⟩])
        []) =
      hopiNum (calcDomainScores [⟨"a", 1, ["X"], []⟩] []) /
        (hopiDen (calcDomainScores [⟨"a", 1, ["X"], []⟩] []) +
          hopiWeight "b") :=
  ⟨by decide, rfl,
   C9_empty_domain_score.1 c9Domains [] ⟨"b", 1, [], []⟩ (by decide) rfl,
   C9_empty_domain_score.2 [⟨"a", 1, ["X"], []⟩] [] "b" 1 []⟩

/-! ## Confirmation tracker clearing (C10) -/

theorem aerase_sublist {α : Type} (l : List (String × α)) (k : String) :
    (aerase l k).Sublist l := by
  induction l with
  | nil => simp [aerase]
  | cons p t ih =>
    by_cases h : p.1 = k
    · simp only [aerase]
      obtain ⟨k₀, v₀⟩ := p
      simp only at h
      simp [h]
    · obtain ⟨k₀, v₀⟩ := p
      simp only at h
      simp only [aerase, if_neg h]
      exact List.Sublist.cons₂ _ ih

theorem aset_map_fst {α : Type} (l : List (String × α)) (k : String) (v : α) :
    (aset l k v).map Prod.fst =
      if k ∈ l.map Prod.fst then l.map Prod.fst
      else l.map Prod.fst ++ [k] := by
  induction l with
  | nil => simp [aset]
  | cons p t ih =>
    obtain ⟨k₀, v₀⟩ := p
    by_cases h : k₀ = k
    · subst h
      simp [aset]
    · have h2 : ¬ k = k₀ := fun hh => h hh.symm
      simp only [aset, if_neg h, List.map_cons, ih]
      by_cases hm : k ∈ t.map Prod.fst <;> simp [hm, h2]

theorem aset_keys_nodup {α : Type} {l : List (String × α)} {k : String}
    {v : α} (h : (l.map Prod.fst).Nodup) :
    ((aset l k v).map Prod.fst).Nodup := by
  rw [aset_map_fst]
  by_cases hm : k ∈ l.map Prod.fst
  · simpa [hm]
  · simp only [if_neg hm]
    simpa [List.nodup_append, hm] using h

theorem aerase_keys_nodup {α : Type} {l : List (String × α)} {k : String}
    (h : (l.map Prod.fst).Nodup) :
    ((aerase l k).map Prod.fst).Nodup :=
  (((aerase_sublist l k).map Prod.fst)).nodup h

theorem alookup_isSome_of_mem_keys {α : Type} {l : List (String × α)}
    {k : String} (h : k ∈ l.map Prod.fst) : ∃ v, alookup l k = some v := by
  induction l with
  | nil => simp at h
  | cons p t ih =>
    obtain ⟨k₀, v₀⟩ := p
    by_cases h0 : k₀ = k
    · exact ⟨v₀, by simp [alookup, h0]⟩
    · simp only [List.map_cons, List.mem_cons] at h
      rcases h with h | h
      · exact absurd h.symm h0
      · obtain ⟨v, hv⟩ := ih h
        exact ⟨v, by simp [alookup, h0, hv]⟩

theorem not_mem_keys_of_alookup_eq_none {α : Type} {l : List (String × α)}
    {k : String} (h : alookup l k = none) : k ∉ l.map Prod.fst := by
  intro hm
  obtain ⟨v, hv⟩ := alookup_isSome_of_mem_keys hm
  rw [hv] at h
  exact Option.noConfusion h

theorem confirmStep_tracker_other (now : ℚ) (tr : Tracker) (out : Inds)
    (p : String × IndData) (m : String) (hm : m ≠ p.1) :
    alookup (confirmStep now (tr, out) p).1 m = alookup tr m := by
  obtain ⟨name, ind⟩ := p
  simp only at hm
  have hnm : ¬ name = m := fun hh => hm hh.symm
  unfold confirmStep
  by_cases h1 : ind.color ≠ 2
  · simp only [if_pos h1]
    exact alookup_aerase tr name m hnm
  · simp only [if_neg h1]
    by_cases h2 : name ∈ criticalIndicators
    · simp [h2]
    · simp only [if_neg h2]
      by_cases h3 : ((alookup tr name).getD ⟨0, 0⟩).count = 0
      · simp only [if_pos h3, alookup_aset, if_neg hnm]
      · simp only [if_neg h3]
        by_cases h4 : now - ((alookup tr name).getD ⟨0, 0⟩).firstSeen < 1 <;>
          simp only [h4, if_true, if_false, alookup_aset, if_neg hnm,
            if_pos, if_neg]

theorem confirmStep_tracker_nodup (now : ℚ) (tr : Tracker) (out : Inds)
    (p : String × IndData) (h : (tr.map Prod.fst).Nodup) :
    ((confirmStep now (tr, out) p).1.map Prod.fst).Nodup := by
  obtain ⟨name, ind⟩ := p
  unfold confirmStep
  by_cases h1 : ind.color ≠ 2
  · simp only [if_pos h1]
    exact aerase_keys_nodup h
  · simp only [if_neg h1]
    by_cases h2 : name ∈ criticalIndicators
    · simpa [h2]
    · simp only [if_neg h2]
      by_cases h3 : ((alookup tr name).getD ⟨0, 0⟩).count = 0
      · simp only [if_pos h3]
        exact aset_keys_nodup h
      · simp only [if_neg h3]
        by_cases h4 : now - ((alookup tr name).getD ⟨0, 0⟩).firstSeen < 1 <;>
          simp only [h4, if_pos, if_neg, if_true, if_false] <;>
          exact aset_keys_nodup h

theorem confirm_fold_tracker_other (now : ℚ) :
    ∀ (l : Inds) (tr : Tracker) (out : Inds) (m : String),
      m ∉ l.map Prod.fst →
      alookup (l.foldl (confirmStep now) (tr, out)).1 m = alookup tr m := by
  intro l
  induction l with
  | nil => intro tr out m _; rfl
  | cons p t ih =>
    intro tr out m hm
    simp only [List.map_cons, List.mem_cons] at hm
    push_neg at hm
    rw [List.foldl_cons]
    have hstep : (confirmStep now (tr, out) p) =
        ((confirmStep now (tr, out) p).1, (confirmStep now (tr, out) p).2) :=
      rfl
    rw [hstep, ih _ _ _ hm.2]
    exact confirmStep_tracker_other now tr out p m hm.1

theorem confirm_fold_cleared (now : ℚ) :
    ∀ (l : Inds) (tr : Tracker) (out : Inds),
      (l.map Prod.fst).Nodup → (tr.map Prod.fst).Nodup →
      ∀ (name : String) (d : IndData),
        alookup l name = some d → d.color ≠ 2 →
        alookup (l.foldl (confirmStep now) (tr, out)).1 name = none := by
  intro l
  induction l with
  | nil => intro tr out _ _ name d h; simp [alookup] at h
  | cons p t ih =>
    intro tr out hl htr name d hlook hcol
    obtain ⟨k₀, v₀⟩ := p
    simp only [List.map_cons, List.nodup_cons] at hl
    rw [List.foldl_cons]
    by_cases h0 : k₀ = name
    · subst h0
      rw [alookup, if_pos rfl] at hlook
      have hcol2 : v₀.color ≠ 2 := by
        rw [Option.some.inj hlook]; exact hcol
      have hstep1 : alookup (confirmStep now (tr, out) (k₀, v₀)).1 k₀ =
          none := by
        unfold confirmStep
        simp only [if_pos hcol2]
        exact alookup_aerase_self htr
      have hrest := confirm_fold_tracker_other now t
        (confirmStep now (tr, out) (k₀, v₀)).1
        (confirmStep now (tr, out) (k₀, v₀)).2 k₀ hl.1
      have hpair : confirmStep now (tr, out) (k₀, v₀) =
          ((confirmStep now (tr, out) (k₀, v₀)).1,
           (confirmStep now (tr, out) (k₀, v₀)).2) := rfl
      rw [hpair]
      rw [hrest]
      exact hstep1
    · rw [alookup, if_neg h0] at hlook
      have hpair : confirmStep now (tr, out) (k₀, v₀) =
          ((confirmStep now (tr, out) (k₀, v₀)).1,
           (confirmStep now (tr, out) (k₀, v₀)).2) := rfl
      rw [hpair]
      exact ih _ _ hl.2
        (confirmStep_tracker_nodup now tr out (k₀, v₀) htr) name d hlook hcol

/-- C10 (amended): after `_apply_confirmation_rules`, every indicator
**present in the cycle's indicator map** and not red has no tracker
entry, but the tracker entry of an indicator **absent** from the map
(e.g. one whose reading was `None` this cycle) persists unchanged, so
confirmation state can survive a cycle in which the indicator was not
red. -/
theorem C10_present_nonred_cleared (now : ℚ) (tracker : Tracker)
    (inds : Inds) (hInds : (inds.map Prod.fst).Nodup)
    (hTr : (tracker.map Prod.fst).Nodup) :
    (∀ name d, alookup inds name = some d → d.color ≠ 2 →
      alookup (applyConfirmationRules now tracker inds).1 name = none) ∧
    (∀ name, alookup inds name = none →
      alookup (applyConfirmationRules now tracker inds).1 name =
        alookup tracker name) := by
  constructor
  · intro name d h hcol
    exact confirm_fold_cleared now inds tracker [] hInds hTr name d h hcol
  · intro name h
    exact confirm_fold_tracker_other now inds tracker [] name
      (not_mem_keys_of_alookup_eq_none h)

/-- Witness for C10: a present green `StrikeTracker` has its count-1
tracker entry cleared, and the entry of the absent `JoblessClaims`
persists. -/
theorem C10_witness :
    (([("StrikeTracker", mkInd 0 true "live")] : Inds).map Prod.fst).Nodup ∧
    (((c10Tracker ++ [("StrikeTracker", ⟨1, 0⟩)]) : Tracker).map
      Prod.fst).Nodup ∧
    alookup (applyConfirmationRules 5
      (c10Tracker ++ [("StrikeTracker", ⟨1, 0⟩)])
      [("StrikeTracker", mkInd 0 true "live")]).1 "StrikeTracker" = none ∧
    alookup (applyConfirmationRules 5
      (c10Tracker ++ [("StrikeTracker", ⟨1, 0⟩)])
      [("StrikeTracker", mkInd 0 true "live")]).1 "JoblessClaims" =
      alookup (c10Tracker ++ [("StrikeTracker", ⟨1, 0⟩)]) "JoblessClaims" :=
  ⟨by decide, by decide,
   (C10_present_nonred_cleared 5 (c10Tracker ++ [("StrikeTracker", ⟨1, 0⟩)])
     [("StrikeTracker", mkInd 0 true "live")] (by decide) (by decide)).1
     "StrikeTracker" (mkInd 0 true "live") rfl (by decide),
   (C10_present_nonred_cleared 5 (c10Tracker ++ [("StrikeTracker", ⟨1, 0⟩)])
     [("StrikeTracker", mkInd 0 true "live")] (by decide) (by decide)).2
     "JoblessClaims" rfl⟩

/-- C10 (counterexample): a cycle whose indicator map does not contain
`JoblessClaims` leaves its count-1 tracker entry in place even though
the indicator was not red in that cycle, and a red on the following
cycle (within the one-hour window of the stale `first_seen`) is
immediately confirmed — the red streak did not restart from scratch. -/
theorem C10_cex :
    (applyConfirmationRules (1/2) c10Tracker []).1 = c10Tracker ∧
    (alookup ((applyConfirmationRules (9/10) c10Tracker
      [("JoblessClaims", mkInd 2 true "live")]).2) "JoblessClaims").map
      IndData.confirmed = some true ∧
    ("JoblessClaims" ∈ criticalIndicators) = False := by
  refine ⟨rfl, ?_, by decide⟩
  simp +decide [applyConfirmationRules, confirmStep, c10Tracker, mkInd,
    alookup, aset, aerase, criticalIndicators, confirmationPolls]
  try norm_num
  try exact ⟨_, rfl, rfl⟩

/-! ## Confidence gating (C6) -/

/-- C6: whenever the HOPI result carries confidence below `0.60` and zero
critical reds, the phase returned by `PhaseController.update` is at most
`3`, regardless of the composite score, hysteresis outcome and critical
jumps. -/
theorem C6_confidence_cap (st : ControllerState) (now : ℚ)
    (hr : HopiResult) (inds : Inds) (hconf : hr.confidence < 3/5)
    (hcrit : hr.criticalReds = 0) :
    (update st now hr inds).2.phase ≤ 3 := by
  have key : ∀ p : ℚ,
      (if hr.confidence < 3/5 ∧ 3 < p ∧ hr.criticalReds = 0 then min p 3
       else p) ≤ 3 := by
    intro p
    by_cases h3 : 3 < p
    · rw [if_pos ⟨hconf, h3, hcrit⟩]
      exact min_le_right _ _
    · rw [if_neg (fun hcon => h3 hcon.2.1)]
      exact le_of_not_lt h3
  exact key _

/-- Witness for C6: a cycle with confidence `0.40`, no critical reds and
a composite of `0.90` returns a phase at most `3`. -/
theorem C6_witness :
    ((⟨9/10, 2/5, [], 0, 0, 0, 0⟩ : HopiResult).confidence < 3/5) ∧
    ((⟨9/10, 2/5, [], 0, 0, 0, 0⟩ : HopiResult).criticalReds = 0) ∧
    (update initialControllerState 100 ⟨9/10, 2/5, [], 0, 0, 0, 0⟩
      []).2.phase ≤ 3 :=
  ⟨by norm_num, rfl,
   C6_confidence_cap initialControllerState 100 ⟨9/10, 2/5, [], 0, 0, 0, 0⟩
     [] (by norm_num) rfl⟩

/-! ## Critical pair forces phase 7 (C7) -/

theorem criticalStep_ge (inds : Inds) (acc : ℚ) (r : CriticalRule) :
    acc ≤ criticalStep inds acc r := by
  unfold criticalStep
  split
  · exact le_max_left _ _
  · exact le_refl _

theorem critFold_ge (inds : Inds) :
    ∀ (l : List CriticalRule) (acc : ℚ),
      acc ≤ l.foldl (criticalStep inds) acc := by
  intro l
  induction l with
  | nil => intro acc; exact le_refl _
  | cons r t ih =>
    intro acc
    rw [List.foldl_cons]
    exact le_trans (criticalStep_ge inds acc r) (ih _)

theorem checkCriticalJumps_ge_seven (inds : Inds) (dm dd : IndData)
    (hMV : alookup inds "MarketVolatility" = some dm) (hcMV : dm.color = 2)
    (hDS : alookup inds "DeepfakeShocks" = some dd) (hcDS : dd.color = 2) :
    7 ≤ checkCriticalJumps inds := by
  have h1 : criticalStep inds 0
      ⟨["MarketVolatility", "DeepfakeShocks"], 7, none, 0⟩ = 7 := by
    simp [criticalStep, condRed, hMV, hDS, hcMV, hcDS]
  simp only [checkCriticalJumps, criticalRulesList, List.foldl_cons,
    List.foldl_nil, h1]
  exact le_trans (criticalStep_ge inds 7 _)
    (le_trans (criticalStep_ge inds _ _) (criticalStep_ge inds _ _))

theorem countReds_critical_pos (inds : Inds) (dm : IndData)
    (hMV : alookup inds "MarketVolatility" = some dm)
    (hcMV : dm.color = 2) :
    (countReds defaultDomains inds).critical ≠ 0 := by
  have hmem := alookup_mem hMV
  have hpos : 0 < inds.countP
      (fun p => p.2.color = 2 ∧ p.1 ∈ allCritical defaultDomains) := by
    rw [List.countP_pos_iff]
    refine ⟨("MarketVolatility", dm), hmem, ?_⟩
    simp only [hcMV]
    decide
  simp only [countReds]
  omega

theorem update_phase_ge_of_crit (st : ControllerState) (now : ℚ)
    (hr : HopiResult) (inds : Inds) (h7 : 7 ≤ checkCriticalJumps inds)
    (hn : hr.criticalReds ≠ 0) : 7 ≤ (update st now hr inds).2.phase := by
  unfold update
  simp only
  split
  · split
    · next hcon => exact absurd hcon.2.2 hn
    · exact h7
  · next hnl =>
    split
    · next hcon => exact absurd hcon.2.2 hn
    · exact le_trans h7 (le_of_not_lt hnl)

/-- C7: when `MarketVolatility` and `DeepfakeShocks` are both confirmed
red in the indicator map of a cycle, the phase returned by that cycle —
with the HOPI result computed from the same indicators — is at least
`7`, regardless of the composite score and the controller state.  (The
rule's `window_hours` is never checked by the source, so the window
constraint only strengthens this hypothesis.) -/
theorem C7_critical_pair_forces_seven (st : ControllerState) (now : ℚ)
    (hist : List Inds) (staleNames : List String) (inds : Inds)
    (dm dd : IndData)
    (hMV : alookup inds "MarketVolatility" = some dm) (hcMV : dm.color = 2)
    (_hcfMV : dm.confirmed = true)
    (hDS : alookup inds "DeepfakeShocks" = some dd) (hcDS : dd.color = 2)
    (_hcfDS : dd.confirmed = true) :
    7 ≤ (update st now
      (calculate defaultDomains defaultPairCaps hist inds staleNames)
      inds).2.phase := by
  apply update_phase_ge_of_crit
  · exact checkCriticalJumps_ge_seven inds dm dd hMV hcMV hDS hcDS
  · exact countReds_critical_pos inds dm hMV hcMV

/-- Witness for C7: both critical indicators confirmed red from the
initial controller state give a phase of at least `7` on that cycle. -/
theorem C7_witness :
    alookup c7Inds "MarketVolatility" = some (mkInd 2 true "live") ∧
    alookup c7Inds "DeepfakeShocks" = some (mkInd 2 true "live") ∧
    (mkInd 2 true "live").color = 2 ∧ (mkInd 2 true "live").confirmed = true ∧
    7 ≤ (update initialControllerState 0
      (calculate defaultDomains defaultPairCaps [] c7Inds []) c7Inds).2.phase :=
  ⟨rfl, rfl, rfl, rfl,
   C7_critical_pair_forces_seven initialControllerState 0 [] [] c7Inds
     (mkInd 2 true "live") (mkInd 2 true "live") rfl rfl rfl rfl rfl rfl⟩

/-! ## Hysteresis escalation (C5) -/

theorem pushHistory_len_ge_two {α : Type} (h : List α) (x : α)
    (hne : h ≠ []) : 2 ≤ (pushHistory 10 h x).length := by
  have hlen : 1 ≤ h.length := List.length_pos.mpr hne
  unfold pushHistory
  simp only [List.length_append, List.length_cons, List.length_nil]
  split
  · next hgt =>
    rw [List.length_drop]
    simp only [List.length_append, List.length_cons, List.length_nil]
    omega
  · next hgt =>
    simp only [not_lt] at hgt
    simp only [List.length_append, List.length_cons, List.length_nil]
    omega

theorem secondLast_pushHistory (h : List Poll) (x : Poll) (p : Poll)
    (hl : h.getLast? = some p) : secondLast (pushHistory 10 h x) = p := by
  have hne : h ≠ [] := by
    intro he
    rw [he] at hl
    exact Option.noConfusion hl
  have hlen : 1 ≤ h.length := List.length_pos.mpr hne
  have hget : h.get? (h.length - 1) = some p := by
    rw [← List.getLast?_eq_get?]
    exact hl
  unfold pushHistory secondLast
  simp only [List.length_append, List.length_cons, List.length_nil]
  split
  · next hgt =>
    rw [List.length_drop, List.get?_drop]
    simp only [List.length_append, List.length_cons, List.length_nil]
    have hidx : h.length + (0 + 1) - 10 +
        (h.length + (0 + 1) - (h.length + (0 + 1) - 10) - 2) =
        h.length - 1 := by omega
    rw [hidx]
    rw [List.get?_append (by omega)]
    rw [hget]
    rfl
  · next hgt =>
    simp only [not_lt] at hgt
    simp only [List.length_append, List.length_cons, List.length_nil]
    have harith : h.length + (0 + 1) - 2 = h.length - 1 := by omega
    rw [harith]
    rw [List.get?_append (by omega)]
    rw [hget]
    rfl

theorem applyHysteresis_blocked (cur lastC : ℚ) (hist : List Poll)
    (now target : ℚ) (tr : ℕ) (hlt : cur < target) (hlen : 2 ≤ hist.length)
    (hprev : determineTargetPhase (secondLast hist).hopi
      (secondLast hist).domainScores (secondLast hist).indicators < target) :
    applyHysteresis cur lastC hist now target tr = cur := by
  unfold applyHysteresis
  rw [if_pos hlt, if_pos hlen]
  simp only
  rw [if_neg (not_le.mpr hprev)]

/-- C5 (amended): when the target phase exceeds the current phase on
cycle N but the target recomputed from cycle N−1's stored poll is lower,
the hysteresis holds the phase — and the full cycle leaves the phase
unchanged **provided** no critical jump rule forces a phase above the
current one and the confidence gate does not apply; a firing critical
rule (or the low-confidence cap on a current phase above 3) can still
change the phase on that same cycle (see the counterexample). -/
theorem C5_escalation_blocked (st : ControllerState) (now : ℚ)
    (hr : HopiResult) (inds : Inds) (p : Poll)
    (hlast : st.pollHistory.getLast? = some p)
    (htgt : st.currentPhase < determineTargetPhase hr.hopi hr.domainScores
      inds)
    (hprev : determineTargetPhase p.hopi p.domainScores p.indicators <
      determineTargetPhase hr.hopi hr.domainScores inds)
    (hcrit : checkCriticalJumps inds ≤ st.currentPhase)
    (hgate : ¬(hr.confidence < 3/5 ∧ 3 < st.currentPhase ∧
      hr.criticalReds = 0)) :
    (update st now hr inds).2.phase = st.currentPhase ∧
    (update st now hr inds).2.changed = false := by
  have hne : st.pollHistory ≠ [] := by
    intro he
    rw [he] at hlast
    exact Option.noConfusion hlast
  have hsl := secondLast_pushHistory st.pollHistory
    ⟨hr.hopi, hr.domainScores, inds⟩ p hlast
  have hlen := pushHistory_len_ge_two st.pollHistory
    ⟨hr.hopi, hr.domainScores, inds⟩ hne
  have hhyst : applyHysteresis st.currentPhase st.lastPhaseChange
      (pushHistory 10 st.pollHistory ⟨hr.hopi, hr.domainScores, inds⟩) now
      (determineTargetPhase hr.hopi hr.domainScores inds) hr.totalReds =
      st.currentPhase := by
    apply applyHysteresis_blocked _ _ _ _ _ _ htgt hlen
    rw [hsl]
    exact hprev
  unfold update
  simp only [hhyst]
  rw [if_neg (not_lt.mpr hcrit), if_neg hgate]
  exact ⟨rfl, by simp⟩

/-- Witness for C5: current phase `0`, previous poll targeting `0`,
current cycle targeting `1`, no critical rule firing: the phase stays
`0` and no change is recorded. -/
theorem C5_witness :
    (c5State.pollHistory.getLast? = some c5PrevPoll) ∧
    (c5State.currentPhase <
      determineTargetPhase (3/20) [] [("CISACyber", mkInd 1 true "live")]) ∧
    (determineTargetPhase c5PrevPoll.hopi c5PrevPoll.domainScores
      c5PrevPoll.indicators <
      determineTargetPhase (3/20) [] [("CISACyber", mkInd 1 true "live")]) ∧
    (checkCriticalJumps [("CISACyber", mkInd 1 true "live")] ≤
      c5State.currentPhase) ∧
    (update c5State 100 ⟨3/20, 1, [], 0, 0, 0, 0⟩
      [("CISACyber", mkInd 1 true "live")]).2.phase =
      c5State.currentPhase ∧
    (update c5State 100 ⟨3/20, 1, [], 0, 0, 0, 0⟩
      [("CISACyber", mkInd 1 true "live")]).2.changed = false := by
  have h1 : c5State.pollHistory.getLast? = some c5PrevPoll := rfl
  have h2 : c5State.currentPhase <
      determineTargetPhase (3/20) [] [("CISACyber", mkInd 1 true "live")] := by
    simp +decide [determineTargetPhase, c5State, mkInd]
    try norm_num
  have h3 : determineTargetPhase c5PrevPoll.hopi c5PrevPoll.domainScores
      c5PrevPoll.indicators <
      determineTargetPhase (3/20) [] [("CISACyber", mkInd 1 true "live")] := by
    simp +decide [determineTargetPhase, c5PrevPoll, mkInd]
    try norm_num
  have h4 : checkCriticalJumps [("CISACyber", mkInd 1 true "live")] ≤
      c5State.currentPhase := by
    simp +decide [checkCriticalJumps, criticalRulesList, criticalStep,
      condRed, alookup, mkInd, c5State]
    try norm_num
  have h5 : ((⟨3/20, 1, [], 0, 0, 0, 0⟩ : HopiResult).hopi = 3/20) := rfl
  have hmain := C5_escalation_blocked c5State 100 ⟨3/20, 1, [], 0, 0, 0, 0⟩
    [("CISACyber", mkInd 1 true "live")] c5PrevPoll h1 h2 h3 h4
    (by intro hcon; exact absurd hcon.1 (by norm_num))
  exact ⟨h1, h2, h3, h4, hmain.1, hmain.2⟩

/-- C5 (counterexample): current phase `0`, previous poll targeting `0`,
current target `1` (one amber), so hysteresis holds — yet a red
`GuardMetros` fires the critical jump rule and the cycle changes the
phase to `5`. -/
theorem C5_cex :
    (determineTargetPhase
      (calculate defaultDomains defaultPairCaps [] c5Inds []).hopi
      (calculate defaultDomains defaultPairCaps [] c5Inds []).domainScores
      c5Inds = 1) ∧
    (determineTargetPhase c5PrevPoll.hopi c5PrevPoll.domainScores
      c5PrevPoll.indicators = 0) ∧
    c5State.currentPhase = 0 ∧
    (update c5State 100 (calculate defaultDomains defaultPairCaps []
      c5Inds []) c5Inds).2.phase = 5 ∧
    (update c5State 100 (calculate defaultDomains defaultPairCaps []
      c5Inds []) c5Inds).2.changed = true := by
  refine ⟨?_, ?_, rfl, ?_, ?_⟩ <;>
    (simp +decide [update, applyHysteresis, determineTargetPhase,
      checkCriticalJumps, criticalRulesList, criticalStep, condRed,
      secondLast, pushHistory, phasesTable, phaseRangeHi, calculate,
      calcIndicatorPoints, pointsStep, applyPairCaps, applyOneCap,
      calcDomainScores, applyTrendBonus, calcHopi, calcConfidence,
      countReds, allCritical,
      defaultDomains, defaultPairCaps, c5Inds, c5State, c5PrevPoll, mkInd,
      alookup, aset, hopiWeight, domainWeight, round3, roundHalfEven]
     try norm_num [Int.fract, inf_eq_min, min_def])

/-! ## Monotonicity (C4) -/

/-- C4 (counterexample): raising a single indicator's color can lower
both quantities.  Raising `CREAOil` from amber to red (with
`MBridgeSettlements` red) triggers the oil-axis pair cap, which scales
down the points of the dually-listed `MBridgeSettlements` and drags the
`economy` score — and the composite — down from `0.070` to `0.065`.
Raising `SchoolClosures` from amber to red empties the amber count, so
the target drops from `1` to `0` and the cycle's resulting phase drops
from `1` to `0` with an identical prior state. -/
theorem C4_cex :
    c4IndsB = setColor c4IndsA "CREAOil" 2 ∧
    (calculate defaultDomains defaultPairCaps [] c4IndsA []).hopi = 7/100 ∧
    (calculate defaultDomains defaultPairCaps [] c4IndsB []).hopi = 13/200 ∧
    ((13 : ℚ)/200 < 7/100) ∧
    c4PhIndsB = setColor c4PhIndsA "SchoolClosures" 2 ∧
    (update c4State 100
      (calculate defaultDomains defaultPairCaps [c4PhIndsA] c4PhIndsA [])
      c4PhIndsA).2.phase = 1 ∧
    (update c4State 100
      (calculate defaultDomains defaultPairCaps [c4PhIndsA] c4PhIndsB [])
      c4PhIndsB).2.phase = 0 := by
  have hcapA : applyPairCaps defaultDomains defaultPairCaps
      (calcIndicatorPoints defaultDomains c4IndsA) =
      [("MBridgeSettlements", 2), ("CISACyber", 5/4), ("CREAOil", 1)] := by
    simp +decide [applyPairCaps, applyOneCap, calcIndicatorPoints, pointsStep,
      defaultDomains, defaultPairCaps, c4IndsA, mkInd, alookup, aset,
      domainWeight]
    try norm_num
  have hcapB : applyPairCaps defaultDomains defaultPairCaps
      (calcIndicatorPoints defaultDomains c4IndsB) =
      [("MBridgeSettlements", 3/2), ("CISACyber", 5/4), ("CREAOil", 3/2)] := by
    simp +decide [applyPairCaps, applyOneCap, calcIndicatorPoints, pointsStep,
      defaultDomains, defaultPairCaps, c4IndsA, c4IndsB, setColor, mkInd,
      alookup, aset, domainWeight]
    try norm_num
  have hXA : (calculate defaultDomains defaultPairCaps [] c4IndsA []).hopi =
      round3 (calcHopi (applyTrendBonus defaultDomains
        (pushHistory 10 [] c4IndsA)
        (calcDomainScores defaultDomains
          (applyPairCaps defaultDomains defaultPairCaps
            (calcIndicatorPoints defaultDomains c4IndsA))))) := rfl
  have hXB : (calculate defaultDomains defaultPairCaps [] c4IndsB []).hopi =
      round3 (calcHopi (applyTrendBonus defaultDomains
        (pushHistory 10 [] c4IndsB)
        (calcDomainScores defaultDomains
          (applyPairCaps defaultDomains defaultPairCaps
            (calcIndicatorPoints defaultDomains c4IndsB))))) := rfl
  refine ⟨rfl, ?_, ?_, by norm_num, rfl, ?_, ?_⟩
  · rw [hXA, hcapA]
    simp +decide [calcDomainScores, applyTrendBonus, risingCount, calcHopi,
      pushHistory, defaultDomains, c4IndsA, mkInd, alookup, aset, hopiWeight,
      round3, roundHalfEven]
    try norm_num [Int.fract, inf_eq_min, min_def]
  · rw [hXB, hcapB]
    simp +decide [calcDomainScores, applyTrendBonus, risingCount, calcHopi,
      pushHistory, defaultDomains, c4IndsA, c4IndsB, setColor, mkInd, alookup,
      aset, hopiWeight, round3, roundHalfEven]
    try norm_num [Int.fract, inf_eq_min, min_def]
  · simp +decide [update, applyHysteresis, determineTargetPhase,
      checkCriticalJumps, criticalRulesList, criticalStep, condRed,
      secondLast, pushHistory, phasesTable, phaseRangeHi, calculate,
      calcIndicatorPoints, pointsStep, applyPairCaps, applyOneCap,
      calcDomainScores, applyTrendBonus, risingCount, calcHopi, calcConfidence, countReds,
      allCritical, defaultDomains, defaultPairCaps, c4PhIndsA, c4State,
      c4PrevPoll, setColor, mkInd, alookup, aset, hopiWeight, domainWeight,
      round3, roundHalfEven]
    try norm_num [Int.fract, inf_eq_min, min_def]
  · simp +decide [update, applyHysteresis, determineTargetPhase,
      checkCriticalJumps, criticalRulesList, criticalStep, condRed,
      secondLast, pushHistory, phasesTable, phaseRangeHi, calculate,
      calcIndicatorPoints, pointsStep, applyPairCaps, applyOneCap,
      calcDomainScores, applyTrendBonus, risingCount, calcHopi, calcConfidence, countReds,
      allCritical, defaultDomains, defaultPairCaps, c4PhIndsA, c4PhIndsB,
      c4State, c4PrevPoll, setColor, mkInd, alookup, aset, hopiWeight,
      domainWeight, round3, roundHalfEven]
    try norm_num [Int.fract, inf_eq_min, min_def]

theorem setColor_rel (X : String) (c2 : ℕ) :
    ∀ (inds : Inds), (∀ p ∈ inds, p.1 = X → p.2.color ≤ c2) →
      IndsRel X inds (setColor inds X c2) := by
  intro inds
  induction inds with
  | nil => intro _; exact List.Forall₂.nil
  | cons p t ih =>
    intro h
    have ht : ∀ q ∈ t, q.1 = X → q.2.color ≤ c2 :=
      fun q hq => h q (List.mem_cons_of_mem _ hq)
    unfold IndsRel setColor
    rw [List.map_cons]
    by_cases hx : p.1 = X
    · rw [if_pos hx]
      exact List.Forall₂.cons
        ⟨rfl, h p (List.mem_cons_self _ _) hx, fun hne => absurd hx hne⟩
        (ih ht)
    · rw [if_neg hx]
      exact List.Forall₂.cons ⟨rfl, le_refl _, fun _ => rfl⟩ (ih ht)

theorem indsRel_lookup {X : String} {l l2 : Inds} (h : IndsRel X l l2)
    (n : String) :
    (alookup l n = none ∧ alookup l2 n = none) ∨
    (∃ da db, alookup l n = some da ∧ alookup l2 n = some db ∧
      da.color ≤ db.color ∧ (n ≠ X → db = da)) := by
  induction h with
  | nil => exact Or.inl ⟨rfl, rfl⟩
  | cons hr hrest ih =>
    next a b l₁ l₂ =>
      obtain ⟨hk, hc, he⟩ := hr
      by_cases hn : a.1 = n
      · refine Or.inr ⟨a.2, b.2, ?_, ?_, hc, ?_⟩
        · obtain ⟨a1, a2⟩ := a
          simp only at hn
          simp [alookup, hn]
        · obtain ⟨a1, a2⟩ := a
          obtain ⟨b1, b2⟩ := b
          simp only at hn hk
          simp [alookup, hk, hn]
        · intro hne
          exact he (by rw [hn]; exact hne)
      · have h1 : alookup (a :: l₁) n = alookup l₁ n := by
          obtain ⟨a1, a2⟩ := a
          simp only at hn
          simp [alookup, hn]
        have h2 : alookup (b :: l₂) n = alookup l₂ n := by
          obtain ⟨a1, a2⟩ := a
          obtain ⟨b1, b2⟩ := b
          simp only at hn hk
          simp [alookup, hk, hn]
        rw [h1, h2]
        exact ih

theorem ptsRel_lookup {X : String} {p p2 : Points} (h : PtsRel X p p2)
    (n : String) :
    (alookup p n = none ∧ alookup p2 n = none) ∨
    (∃ va vb, alookup p n = some va ∧ alookup p2 n = some vb ∧
      va ≤ vb ∧ (n ≠ X → vb = va)) := by
  induction h with
  | nil => exact Or.inl ⟨rfl, rfl⟩
  | cons hr hrest ih =>
    next a b l₁ l₂ =>
      obtain ⟨hk, hc, he⟩ := hr
      by_cases hn : a.1 = n
      · refine Or.inr ⟨a.2, b.2, ?_, ?_, hc, ?_⟩
        · obtain ⟨a1, a2⟩ := a
          simp only at hn
          simp [alookup, hn]
        · obtain ⟨a1, a2⟩ := a
          obtain ⟨b1, b2⟩ := b
          simp only at hn hk
          simp [alookup, hk, hn]
        · intro hne
          exact he (by rw [hn]; exact hne)
      · have h1 : alookup (a :: l₁) n = alookup l₁ n := by
          obtain ⟨a1, a2⟩ := a
          simp only at hn
          simp [alookup, hn]
        have h2 : alookup (b :: l₂) n = alookup l₂ n := by
          obtain ⟨a1, a2⟩ := a
          obtain ⟨b1, b2⟩ := b
          simp only at hn hk
          simp [alookup, hk, hn]
        rw [h1, h2]
        exact ih

theorem ptsRel_lookup_ne {X : String} {p p2 : Points} (h : PtsRel X p p2)
    {n : String} (hn : n ≠ X) : alookup p2 n = alookup p n := by
  rcases ptsRel_lookup h n with ⟨h1, h2⟩ | ⟨va, vb, h1, h2, _, heq⟩
  · rw [h1, h2]
  · rw [h1, h2, heq hn]

theorem ptsRel_lookup_le {X : String} {p p2 : Points} (h : PtsRel X p p2)
    (n : String) : (alookup p n).getD 0 ≤ (alookup p2 n).getD 0 := by
  rcases ptsRel_lookup h n with ⟨h1, h2⟩ | ⟨va, vb, h1, h2, hle, _⟩
  · rw [h1, h2]
  · rw [h1, h2]
    exact hle

theorem ptsRel_isSome {X : String} {p p2 : Points} (h : PtsRel X p p2)
    (n : String) : (alookup p2 n).isSome = (alookup p n).isSome := by
  rcases ptsRel_lookup h n with ⟨h1, h2⟩ | ⟨va, vb, h1, h2, _, _⟩ <;>
    rw [h1, h2] <;> rfl

theorem ptsRel_aset {X : String} {p p2 : Points} (h : PtsRel X p p2)
    (k : String) {v v2 : ℚ} (hle : v ≤ v2) (heq : k ≠ X → v2 = v) :
    PtsRel X (aset p k v) (aset p2 k v2) := by
  induction h with
  | nil =>
    exact List.Forall₂.cons ⟨rfl, hle, fun hne => heq hne⟩ List.Forall₂.nil
  | cons hr hrest ih =>
    rename_i a b l₁ l₂
    obtain ⟨hk, hc, he⟩ := hr
    obtain ⟨a1, a2⟩ := a
    obtain ⟨b1, b2⟩ := b
    simp only at hk hc he
    subst hk
    by_cases hka : b1 = k
    · subst hka
      simp only [aset, if_pos rfl]
      exact List.Forall₂.cons ⟨rfl, hle, fun hne => heq hne⟩ hrest
    · simp only [aset, if_neg hka]
      exact List.Forall₂.cons ⟨rfl, hc, fun hne => he hne⟩ ih

theorem div_mono_nonneg {a b den : ℚ} (h : a ≤ b) (hd : 0 ≤ den) :
    a / den ≤ b / den := by
  rw [div_eq_mul_inv, div_eq_mul_inv]
  exact mul_le_mul_of_nonneg_right h (inv_nonneg.mpr hd)

theorem pointsStep_fold_rel (X : String) {inds inds2 : Inds} (d : Domain)
    (hrel : IndsRel X inds inds2) (hw : 0 ≤ d.weight) :
    ∀ (names : List String) (acc acc2 : Points), PtsRel X acc acc2 →
      PtsRel X (names.foldl (pointsStep inds d) acc)
        (names.foldl (pointsStep inds2 d) acc2) := by
  intro names
  induction names with
  | nil => intro acc acc2 hacc; exact hacc
  | cons i t ih =>
    intro acc acc2 hacc
    rw [List.foldl_cons, List.foldl_cons]
    rcases indsRel_lookup hrel i with ⟨h1, h2⟩ | ⟨da, db, h1, h2, hc, he⟩
    · have e1 : pointsStep inds d acc i = acc := by
        unfold pointsStep; rw [h1]
      have e2 : pointsStep inds2 d acc2 i = acc2 := by
        unfold pointsStep; rw [h2]
      rw [e1, e2]
      exact ih acc acc2 hacc
    · have e1 : pointsStep inds d acc i =
          aset acc i ((da.color : ℚ) * d.weight *
            (if i ∈ d.critical then 2 else 1)) := by
        unfold pointsStep; rw [h1]
      have e2 : pointsStep inds2 d acc2 i =
          aset acc2 i ((db.color : ℚ) * d.weight *
            (if i ∈ d.critical then 2 else 1)) := by
        unfold pointsStep; rw [h2]
      rw [e1, e2]
      have hm : (0 : ℚ) ≤ (if i ∈ d.critical then 2 else 1) := by
        split <;> norm_num
      have hva : (da.color : ℚ) * d.weight *
          (if i ∈ d.critical then 2 else 1) ≤
          (db.color : ℚ) * d.weight * (if i ∈ d.critical then 2 else 1) :=
        mul_le_mul_of_nonneg_right
          (mul_le_mul_of_nonneg_right (Nat.cast_le.mpr hc) hw) hm
      have hveq : i ≠ X →
          (db.color : ℚ) * d.weight * (if i ∈ d.critical then 2 else 1) =
          (da.color : ℚ) * d.weight * (if i ∈ d.critical then 2 else 1) := by
        intro hne
        rw [he hne]
      exact ih _ _ (ptsRel_aset hacc i hva hveq)

theorem points_rel (X : String) {inds inds2 : Inds}
    (hrel : IndsRel X inds inds2) :
    ∀ (domains : List Domain), (∀ d ∈ domains, 0 ≤ d.weight) →
      PtsRel X (calcIndicatorPoints domains inds)
        (calcIndicatorPoints domains inds2) := by
  have aux : ∀ (domains : List Domain), (∀ d ∈ domains, 0 ≤ d.weight) →
      ∀ (acc acc2 : Points), PtsRel X acc acc2 →
      PtsRel X
        (domains.foldl (fun acc d => d.indicators.foldl (pointsStep inds d)
          acc) acc)
        (domains.foldl (fun acc d => d.indicators.foldl (pointsStep inds2 d)
          acc) acc2) := by
    intro domains
    induction domains with
    | nil => intro _ acc acc2 hacc; exact hacc
    | cons d t ih =>
      intro hwt acc acc2 hacc
      rw [List.foldl_cons, List.foldl_cons]
      exact ih (fun q hq => hwt q (List.mem_cons_of_mem _ hq)) _ _
        (pointsStep_fold_rel X d hrel (hwt d (List.mem_cons_self _ _))
          d.indicators acc acc2 hacc)
  intro domains hw
  exact aux domains hw [] [] List.Forall₂.nil

theorem applyOneCap_rel (X : String) (domains : List Domain)
    {pts pts2 capped capped2 : Points} (r : PairCap)
    (hp : PtsRel X pts pts2) (hc : PtsRel X capped capped2)
    (hfst : r.fst ≠ X) (hsnd : r.snd ≠ X) :
    PtsRel X (applyOneCap domains pts capped r)
      (applyOneCap domains pts2 capped2 r) := by
  unfold applyOneCap
  rw [ptsRel_lookup_ne hp hfst, ptsRel_lookup_ne hp hsnd]
  by_cases hcond : (alookup pts r.fst).isSome ∧ (alookup pts r.snd).isSome
  · rw [if_pos hcond, if_pos hcond]
    by_cases hgt : 2 * domainWeight domains r.domain * r.capFactor <
        (alookup pts r.fst).getD 0 + (alookup pts r.snd).getD 0
    · rw [if_pos hgt, if_pos hgt]
      exact ptsRel_aset
        (ptsRel_aset hc r.fst (le_refl _) (fun _ => rfl)) r.snd (le_refl _)
        (fun _ => rfl)
    · rw [if_neg hgt, if_neg hgt]
      exact hc
  · rw [if_neg hcond, if_neg hcond]
    exact hc

theorem applyPairCaps_rel (X : String) (domains : List Domain)
    {pts pts2 : Points} (hp : PtsRel X pts pts2) :
    ∀ (rules : List PairCap),
      (∀ pc ∈ rules, pc.fst ≠ X ∧ pc.snd ≠ X) →
      PtsRel X (applyPairCaps domains rules pts)
        (applyPairCaps domains rules pts2) := by
  have aux : ∀ (rules : List PairCap),
      (∀ pc ∈ rules, pc.fst ≠ X ∧ pc.snd ≠ X) →
      ∀ (capped capped2 : Points), PtsRel X capped capped2 →
      PtsRel X (rules.foldl (applyOneCap domains pts) capped)
        (rules.foldl (applyOneCap domains pts2) capped2) := by
    intro rules
    induction rules with
    | nil => intro _ capped capped2 hcc; exact hcc
    | cons r t ih =>
      intro hr capped capped2 hcc
      rw [List.foldl_cons, List.foldl_cons]
      exact ih (fun q hq => hr q (List.mem_cons_of_mem _ hq)) _ _
        (applyOneCap_rel X domains r hp hcc
          (hr r (List.mem_cons_self _ _)).1 (hr r (List.mem_cons_self _ _)).2)
  intro rules hr
  exact aux rules hr pts pts2 hp

theorem scores_rel (X : String) {capped capped2 : Points}
    (h : PtsRel X capped capped2) :
    ∀ (domains : List Domain), (∀ d ∈ domains, 0 ≤ d.weight) →
      ScoresRel (calcDomainScores domains capped)
        (calcDomainScores domains capped2) := by
  intro domains
  induction domains with
  | nil => intro _; exact List.Forall₂.nil
  | cons d t ih =>
    intro hw
    unfold calcDomainScores
    rw [List.map_cons, List.map_cons]
    refine List.Forall₂.cons ?_ (ih (fun q hq => hw q
      (List.mem_cons_of_mem _ hq)))
    by_cases hn : 0 < d.indicators.length
    · simp only [if_pos hn]
      refine ⟨by trivial, ?_⟩
      have hsum : (d.indicators.map (fun i => (alookup capped i).getD 0)).sum
          ≤ (d.indicators.map (fun i => (alookup capped2 i).getD 0)).sum :=
        List.sum_le_sum (fun i _ => ptsRel_lookup_le h i)
      have hden : (0 : ℚ) ≤ 2 * d.weight * (d.indicators.length : ℚ) := by
        have := hw d (List.mem_cons_self _ _)
        positivity
      exact min_le_min (le_refl 1) (div_mono_nonneg hsum hden)
    · simp only [if_neg hn]
      exact ⟨by trivial, le_refl _⟩

theorem scores_le_one (domains : List Domain) (capped : Points) :
    ∀ u ∈ calcDomainScores domains capped, u.2 ≤ 1 := by
  intro u hu
  unfold calcDomainScores at hu
  obtain ⟨d, _, hd⟩ := List.mem_map.mp hu
  by_cases hn : 0 < d.indicators.length
  · rw [if_pos hn] at hd
    rw [← hd]
    exact min_le_left _ _
  · rw [if_neg hn] at hd
    rw [← hd]
    norm_num

theorem headD_append_left {α : Type} (B : List α) (x d : α) (h : B ≠ []) :
    (B ++ [x]).headD d = B.headD d := by
  cases B with
  | nil => exact absurd rfl h
  | cons a t => rfl

theorem pushHistory_concat (h : List Inds) (x : Inds) :
    pushHistory 10 h x =
      (if 10 < h.length + 1 then h.drop (h.length + 1 - 10) else h) ++ [x] := by
  unfold pushHistory
  simp only [List.length_append, List.length_cons, List.length_nil,
    Nat.zero_add]
  by_cases hc : 10 < h.length + 1
  · rw [if_pos hc, if_pos hc]
    rw [List.drop_append_eq_append_drop]
    have h0 : h.length + 1 - 10 - h.length = 0 := by omega
    rw [h0, List.drop_zero]
  · rw [if_neg hc, if_neg hc]

theorem risingCount_mono (X : String) (d : Domain) (oldPoll : Inds)
    {cur cur2 : Inds} (hrel : IndsRel X cur cur2) :
    risingCount d oldPoll cur ≤ risingCount d oldPoll cur2 := by
  unfold risingCount
  apply List.countP_mono_left
  intro i _ hp
  rcases indsRel_lookup hrel i with ⟨h1, h2⟩ | ⟨da, db, h1, h2, hc, _⟩
  · rw [h1] at hp
    cases halo : alookup oldPoll i <;> simp [halo] at hp
  · rw [h1] at hp
    rw [h2]
    cases halo : alookup oldPoll i with
    | none => rw [halo] at hp; simp at hp
    | some old =>
      rw [halo] at hp
      simp only [decide_eq_true_eq] at hp
      simp only [decide_eq_true_eq]
      omega

theorem trend_rel (X : String) (domains : List Domain) (hist : List Inds)
    {inds inds2 : Inds} (hrel : IndsRel X inds inds2) :
    ∀ (s s2 : List (String × ℚ)), ScoresRel s s2 → (∀ u ∈ s, u.2 ≤ 1) →
      ScoresRel (applyTrendBonus domains (pushHistory 10 hist inds) s)
        (applyTrendBonus domains (pushHistory 10 hist inds2) s2) := by
  intro s s2 hs hbound
  rw [pushHistory_concat, pushHistory_concat]
  set A := if 10 < hist.length + 1 then hist.drop (hist.length + 1 - 10)
    else hist with hA
  unfold applyTrendBonus
  simp only [List.length_append, List.length_cons, List.length_nil,
    Nat.zero_add]
  by_cases hlen : A.length + 1 < 2
  · rw [if_pos hlen, if_pos hlen]
    exact hs
  · rw [if_neg hlen, if_neg hlen]
    have hA1 : 1 ≤ A.length := by omega
    have hk : A.length + 1 - 1 - min 3 (A.length + 1 - 1) < A.length := by
      have := min_le_right 3 (A.length + 1 - 1)
      have := min_le_left 3 (A.length + 1 - 1)
      omega
    have hkle : A.length + 1 - 1 - min 3 (A.length + 1 - 1) ≤ A.length := by
      omega
    have hdropne : A.drop (A.length + 1 - 1 - min 3 (A.length + 1 - 1)) ≠
        [] := by
      intro he
      have := List.length_drop (A.length + 1 - 1 - min 3 (A.length + 1 - 1)) A
      rw [he] at this
      simp at this
      omega
    have hodrop : ∀ (y : Inds),
        (A ++ [y]).drop (A.length + 1 - 1 - min 3 (A.length + 1 - 1)) =
        A.drop (A.length + 1 - 1 - min 3 (A.length + 1 - 1)) ++ [y] := by
      intro y
      rw [List.drop_append_eq_append_drop]
      have h0 : A.length + 1 - 1 - min 3 (A.length + 1 - 1) - A.length = 0 :=
        by omega
      rw [h0]
      rw [List.drop_zero]
    have hold : ∀ (y : Inds),
        ((A ++ [y]).drop (A.length + 1 - 1 - min 3 (A.length + 1 - 1))).headD
          [] =
        (A.drop (A.length + 1 - 1 - min 3 (A.length + 1 - 1))).headD [] := by
      intro y
      rw [hodrop y]
      exact headD_append_left _ y [] hdropne
    have hcur : ∀ (y : Inds), (A ++ [y]).getLastD [] = y := by
      intro y
      exact List.getLastD_concat _ _ _
    rw [hold inds, hold inds2, hcur inds, hcur inds2]
    set O := (A.drop (A.length + 1 - 1 - min 3 (A.length + 1 - 1))).headD []
      with hO
    clear hold hcur hodrop hdropne hk hkle hA1 hlen hA
    induction hs with
    | nil => exact List.Forall₂.nil
    | cons hr hrest ih =>
      rename_i u v l₁ l₂
      obtain ⟨hk1, hle1⟩ := hr
      have hbt : ∀ w ∈ l₁, w.2 ≤ 1 :=
        fun w hw => hbound w (List.mem_cons_of_mem _ hw)
      have hbu : u.2 ≤ 1 := hbound u (List.mem_cons_self _ _)
      rw [List.map_cons, List.map_cons]
      refine List.Forall₂.cons ?_ (ih hbt)
      try simp only
      rw [hk1]
      cases hfind : domains.find? (fun d => d.name = u.1) with
      | none => exact ⟨hk1, hle1⟩
      | some d =>
        try simp only
        have hrc := risingCount_mono X d O hrel
        by_cases h2a : 2 ≤ risingCount d O inds
        · have h2b : 2 ≤ risingCount d O inds2 := le_trans h2a hrc
          rw [if_pos h2a, if_pos h2b]
          exact ⟨rfl, min_le_min (le_refl 1) (by linarith)⟩
        · rw [if_neg h2a]
          by_cases h2b : 2 ≤ risingCount d O inds2
          · rw [if_pos h2b]
            refine ⟨rfl, le_min hbu (by linarith)⟩
          · rw [if_neg h2b]
            exact ⟨hk1, hle1⟩

theorem calcHopi_def (s : List (String × ℚ)) :
    calcHopi s = if 0 < hopiDen s then hopiNum s / hopiDen s else 0 := rfl

theorem scoresRel_den {s s2 : List (String × ℚ)} (h : ScoresRel s s2) :
    hopiDen s2 = hopiDen s := by
  induction h with
  | nil => rfl
  | cons hr hrest ih =>
    rename_i u v l₁ l₂
    obtain ⟨hk, _⟩ := hr
    simp only [hopiDen, List.map_cons, List.sum_cons] at *
    rw [hk, ih]

theorem scoresRel_num {s s2 : List (String × ℚ)} (h : ScoresRel s s2) :
    hopiNum s ≤ hopiNum s2 := by
  induction h with
  | nil => exact le_refl _
  | cons hr hrest ih =>
    rename_i u v l₁ l₂
    obtain ⟨hk, hle⟩ := hr
    simp only [hopiNum, List.map_cons, List.sum_cons] at *
    rw [hk]
    exact add_le_add
      (mul_le_mul_of_nonneg_right hle (hopiWeight_pos u.1).le) ih

theorem calcHopi_mono {s s2 : List (String × ℚ)} (h : ScoresRel s s2) :
    calcHopi s ≤ calcHopi s2 := by
  rw [calcHopi_def, calcHopi_def, scoresRel_den h]
  by_cases hpos : 0 < hopiDen s
  · rw [if_pos hpos, if_pos hpos]
    exact div_mono_nonneg (scoresRel_num h) hpos.le
  · rw [if_neg hpos, if_neg hpos]

theorem roundHalfEven_lb (q : ℚ) : ⌊q⌋ ≤ roundHalfEven q := by
  simp only [roundHalfEven]
  split
  · exact le_refl _
  · split
    · omega
    · split
      · exact le_refl _
      · omega

theorem roundHalfEven_ub (q : ℚ) : roundHalfEven q ≤ ⌊q⌋ + 1 := by
  simp only [roundHalfEven]
  split
  · omega
  · split
    · omega
    · split
      · omega
      · omega

theorem roundHalfEven_mono {a b : ℚ} (h : a ≤ b) :
    roundHalfEven a ≤ roundHalfEven b := by
  have hf : ⌊a⌋ ≤ ⌊b⌋ := Int.floor_le_floor h
  rcases lt_or_eq_of_le hf with hlt | heq
  · have h1 := roundHalfEven_ub a
    have h2 := roundHalfEven_lb b
    omega
  · have hfr : a - (⌊a⌋ : ℚ) ≤ b - (⌊b⌋ : ℚ) := by
      calc a - (⌊a⌋ : ℚ) ≤ b - (⌊a⌋ : ℚ) := sub_le_sub_right h _
        _ = b - (⌊b⌋ : ℚ) := by rw [heq]
    simp only [roundHalfEven]
    by_cases hb1 : b - (⌊b⌋ : ℚ) < 1/2
    · have ha1 : a - (⌊a⌋ : ℚ) < 1/2 := lt_of_le_of_lt hfr hb1
      rw [if_pos ha1, if_pos hb1]
      exact hf
    · by_cases ha1 : a - (⌊a⌋ : ℚ) < 1/2
      · rw [if_pos ha1, if_neg hb1]
        repeat' split
        all_goals omega
      · rw [if_neg ha1, if_neg hb1]
        by_cases ha2 : 1/2 < a - (⌊a⌋ : ℚ)
        · have hb2 : 1/2 < b - (⌊b⌋ : ℚ) := lt_of_lt_of_le ha2 hfr
          rw [if_pos ha2, if_pos hb2]
          omega
        · rw [if_neg ha2]
          by_cases hb2 : 1/2 < b - (⌊b⌋ : ℚ)
          · rw [if_pos hb2]
            repeat' split
            all_goals omega
          · rw [if_neg hb2, heq]

theorem round3_mono {a b : ℚ} (h : a ≤ b) : round3 a ≤ round3 b := by
  unfold round3
  have h1 : roundHalfEven (a * 1000) ≤ roundHalfEven (b * 1000) :=
    roundHalfEven_mono (mul_le_mul_of_nonneg_right h (by norm_num))
  have h2 : ((roundHalfEven (a * 1000) : ℤ) : ℚ) ≤
      ((roundHalfEven (b * 1000) : ℤ) : ℚ) := Int.cast_le.mpr h1
  exact div_mono_nonneg h2 (by norm_num)

/-- C4 (amended): for any configuration with nonnegative domain weights,
raising the color of a single indicator that is named in **no pair-cap
rule** never decreases the composite score, for any history and stale
set.  (As the counterexample shows, the claim fails in general: raising
a pair-cap member can lower the composite through the shared-indicator
scaling, and the resulting phase can decrease even for non-pair
indicators because the target table's amber-count conditions are not
monotone.) -/
theorem C4_composite_monotone_nonpair (domains : List Domain)
    (pairCaps : List PairCap) (hist : List Inds) (staleNames : List String)
    (inds : Inds) (X : String) (c2 : ℕ)
    (hw : ∀ d ∈ domains, 0 ≤ d.weight)
    (hpc : ∀ pc ∈ pairCaps, pc.fst ≠ X ∧ pc.snd ≠ X)
    (hraise : ∀ p ∈ inds, p.1 = X → p.2.color ≤ c2) :
    (calculate domains pairCaps hist inds staleNames).hopi ≤
      (calculate domains pairCaps hist (setColor inds X c2)
        staleNames).hopi := by
  have hrel := setColor_rel X c2 inds hraise
  have hpts := points_rel X hrel domains hw
  have hcaps := applyPairCaps_rel X domains hpts pairCaps hpc
  have hscores := scores_rel X hcaps domains hw
  have hbound := scores_le_one domains
    (applyPairCaps domains pairCaps (calcIndicatorPoints domains inds))
  have htrend := trend_rel X domains hist hrel _ _ hscores hbound
  have hhopi := calcHopi_mono htrend
  have hdef1 : (calculate domains pairCaps hist inds staleNames).hopi =
      round3 (calcHopi (applyTrendBonus domains (pushHistory 10 hist inds)
        (calcDomainScores domains (applyPairCaps domains pairCaps
          (calcIndicatorPoints domains inds))))) := rfl
  have hdef2 : (calculate domains pairCaps hist (setColor inds X c2)
      staleNames).hopi =
      round3 (calcHopi (applyTrendBonus domains
        (pushHistory 10 hist (setColor inds X c2))
        (calcDomainScores domains (applyPairCaps domains pairCaps
          (calcIndicatorPoints domains (setColor inds X c2)))))) := rfl
  rw [hdef1, hdef2]
  exact round3_mono hhopi

/-- Witness for C4 (amended): raising the non-pair indicator `CISACyber`
from amber to red never lowers the composite on a concrete input (the
default configuration, empty history). -/
theorem C4_witness :
    (∀ d ∈ defaultDomains, 0 ≤ d.weight) ∧
    (∀ pc ∈ defaultPairCaps, pc.fst ≠ "CISACyber" ∧ pc.snd ≠ "CISACyber") ∧
    (∀ p ∈ ([("CISACyber", mkInd 1 true "live")] : Inds),
      p.1 = "CISACyber" → p.2.color ≤ 2) ∧
    (calculate defaultDomains defaultPairCaps []
      [("CISACyber", mkInd 1 true "live")] []).hopi ≤
    (calculate defaultDomains defaultPairCaps []
      (setColor [("CISACyber", mkInd 1 true "live")] "CISACyber" 2)
      []).hopi :=
  ⟨by norm_num [defaultDomains], by decide, by decide,
   C4_composite_monotone_nonpair defaultDomains defaultPairCaps [] []
     [("CISACyber", mkInd 1 true "live")] "CISACyber" 2
     (by norm_num [defaultDomains]) (by decide) (by decide)⟩

end Canairy
